import Mathlib

/-!
Verification of the ideav-local-associative-js repository: a shallow embedding
of its export/import module, format sniffing, filters module, HTTP handler
response logic, and the recursive-structure codec specified for the link
storage engine.

JavaScript strings are modelled as lists of characters; JavaScript numbers
are idealised as exact rationals with a separate NaN marker (the repository
manipulates only small integer link ids, where the idealisation is exact).
-/

/-- A JavaScript string, modelled as a list of characters. -/
abbrev JStr := List Char

/-- Shorthand to build a modelled string from a Lean string literal. -/
def js (s : String) : JStr := s.toList

/-- Whitespace characters recognised by the model of the JavaScript trim
and parseInt functions (space, tab, newline, carriage return). -/
def isWsChar (c : Char) : Bool := c = ' ' || c = '\t' || c = '\n' || c = '\r'

/-- Model of the JavaScript String trim of leading whitespace. -/
def ltrimStr (s : JStr) : JStr := s.dropWhile isWsChar

/-- Model of the JavaScript String trim of trailing whitespace. -/
def rtrimStr (s : JStr) : JStr := (s.reverse.dropWhile isWsChar).reverse

/-- Model of the JavaScript String trim method. -/
def jsTrim (s : JStr) : JStr := rtrimStr (ltrimStr s)

/-- Model of the JavaScript String split method with a one-character
separator: splits at every occurrence, keeping empty segments, and yields
one (possibly empty) segment even for the empty string. -/
def splitChar (sep : Char) : JStr → List JStr
  | [] => [[]]
  | c :: cs =>
    if c = sep then [] :: splitChar sep cs
    else
      match splitChar sep cs with
      | [] => [[c]]
      | s :: ss => (c :: s) :: ss

/-- Interleave a separator string between the strings of a list and
concatenate, as the JavaScript Array join method does. -/
def joinSep (sep : JStr) : List JStr → JStr
  | [] => []
  | [s] => s
  | s :: rest => s ++ sep ++ joinSep sep rest

/-- Model of the JavaScript String includes method: containment of a
contiguous substring. -/
def includesStr (needle : JStr) : JStr → Bool
  | [] => needle.isEmpty
  | c :: cs => needle.isPrefixOf (c :: cs) || includesStr needle cs

/-- Model of the JavaScript String startsWith method. -/
def jsStartsWith (p s : JStr) : Bool := p.isPrefixOf s

/-- Model of the JavaScript String endsWith method. -/
def jsEndsWith (p s : JStr) : Bool := p.reverse.isPrefixOf s.reverse

/-- ASCII lower-casing of one character, as the JavaScript toLowerCase
method acts on the ASCII range used by this repository. -/
def lowerChar (c : Char) : Char :=
  if 'A' ≤ c ∧ c ≤ 'Z' then Char.ofNat (c.toNat + 32) else c

/-- Model of the JavaScript String toLowerCase method on ASCII data. -/
def lowerStr (s : JStr) : JStr := s.map lowerChar

/-! ### Decimal digits: printing and parsing of numbers -/

/-- The decimal digit character for a digit value (values above nine are
clamped to the zero digit; callers only pass reduced digits). -/
def digitChar : Nat → Char
  | 0 => '0' | 1 => '1' | 2 => '2' | 3 => '3' | 4 => '4'
  | 5 => '5' | 6 => '6' | 7 => '7' | 8 => '8' | 9 => '9'
  | _ => '0'

/-- Whether a character is a decimal digit. -/
def isDigitChar (c : Char) : Bool := 48 ≤ c.toNat && c.toNat ≤ 57

/-- Accumulator worker for decimal printing of a natural number; the fuel
argument makes the recursion structural, and any fuel above the printed
number is enough. -/
def natToCharsAux : Nat → Nat → List Char → List Char
  | 0, _, acc => acc
  | fuel + 1, n, acc =>
    if n = 0 then acc
    else natToCharsAux fuel (n / 10) (digitChar (n % 10) :: acc)

/-- Decimal notation of a natural number, as JavaScript number-to-string
conversion produces for the integers this repository handles. -/
def natToChars (n : Nat) : JStr := if n = 0 then ['0'] else natToCharsAux (n + 1) n []

/-- Decimal notation of an integer. -/
def intToChars (i : Int) : JStr :=
  if i < 0 then '-' :: natToChars i.natAbs else natToChars i.natAbs

/-- Numeric value of a list of decimal digit characters. -/
def valNat (ds : List Char) : Nat := ds.foldl (fun a c => a * 10 + (c.toNat - 48)) 0

/-- Parse the leading run of decimal digits of a string, as the JavaScript
parseInt function consumes digits; fails (NaN) when there is none. -/
def parseDigits (cs : JStr) : Option Nat :=
  let ds := cs.takeWhile isDigitChar
  if ds.isEmpty then none else some (valNat ds)

/-- Model of the JavaScript parseInt function with radix ten: skip leading
whitespace, read an optional sign and then leading digits; the result is
none exactly when JavaScript would produce NaN. -/
def jsParseInt (s : JStr) : Option Int :=
  match ltrimStr s with
  | [] => none
  | c :: r =>
    if c = '-' then (parseDigits r).map (fun n => -(n : Int))
    else if c = '+' then (parseDigits r).map (fun n => (n : Int))
    else (parseDigits (c :: r)).map (fun n => (n : Int))

/-- The JavaScript idiom of taking a parsed integer or zero: the
logical-or coercion maps NaN to zero and leaves zero itself unchanged. -/
def orZero (o : Option Int) : Int := o.getD 0

/-! ### JavaScript values

Numbers are idealised as exact rationals; the NaN value is the none case.
Arrays and objects carry their elements as constructor spines so that all
recursion over values is structural. The repository's data domain is small
natural link identifiers, on which the idealisation is exact. -/

/-- A JavaScript value. An array is an arrNil-terminated arrCons spine; an
object is an objNil-terminated objCons spine of key-value bindings. -/
inductive JsVal where
  | undef
  | jsnull
  | bool (b : Bool)
  | num (q : Option ℚ)
  | str (s : JStr)
  | arrNil
  | arrCons (head tail : JsVal)
  | objNil
  | objCons (key : JStr) (val rest : JsVal)
deriving DecidableEq

/-- Build an array value from a list. -/
def jsArr : List JsVal → JsVal
  | [] => .arrNil
  | v :: vs => .arrCons v (jsArr vs)

/-- The elements of an array value as a list. -/
def jsArrToList : JsVal → List JsVal
  | .arrCons v rest => v :: jsArrToList rest
  | _ => []

/-- The length of an array value. -/
def jsArrLen : JsVal → Nat
  | .arrCons _ rest => jsArrLen rest + 1
  | _ => 0

/-- Build an object value from a binding list. -/
def jsObj : List (JStr × JsVal) → JsVal
  | [] => .objNil
  | f :: fs => .objCons f.1 f.2 (jsObj fs)

/-- The long-division digits of a proper fraction rem over den; the fuel
bounds the number of produced digits (twenty, as shortest-round-trip
printing of the doubles this repository handles never needs more). -/
def fracDigits : Nat → Nat → Nat → JStr
  | 0, _, _ => []
  | fuel + 1, rem, den =>
    if rem = 0 then []
    else digitChar (rem * 10 / den) :: fracDigits fuel (rem * 10 % den) den

/-- Decimal notation of a rational, modelling JavaScript number-to-string
conversion (exact on the integers and terminating decimals the repository
produces). -/
def ratToChars (q : ℚ) : JStr :=
  let na := q.num.natAbs
  (if q.num < 0 then ['-'] else []) ++
    natToChars (na / q.den) ++
    (if na % q.den = 0 then [] else '.' :: fracDigits 20 (na % q.den) q.den)

/-- Printing of a JavaScript number, where none is NaN. -/
def numToChars : Option ℚ → JStr
  | none => js "NaN"
  | some q => ratToChars q

/-- Model of JavaScript string conversion. Arrays print their elements
joined by commas, flattening nested arrays, with null and undefined
elements printing as empty, as the Array toString method does. -/
def jsToString : JsVal → JStr
  | .undef => js "undefined"
  | .jsnull => js "null"
  | .bool b => if b then js "true" else js "false"
  | .num q => numToChars q
  | .str s => s
  | .arrNil => []
  | .arrCons h t =>
    (match h with
     | .undef => []
     | .jsnull => []
     | h => jsToString h) ++
    (match t with
     | .arrCons _ _ => ',' :: jsToString t
     | _ => [])
  | .objNil => js "[object Object]"
  | .objCons _ _ _ => js "[object Object]"

/-- Parse a full unsigned decimal literal (digits with an optional
fractional part); fails unless the entire string is consumed. -/
def parseUnsignedFull (cs : JStr) : Option ℚ :=
  let ds := cs.takeWhile isDigitChar
  let rest := cs.dropWhile isDigitChar
  if ds.isEmpty then none
  else
    match rest with
    | [] => some ((valNat ds : ℚ))
    | '.' :: fs =>
      let fds := fs.takeWhile isDigitChar
      if fs.dropWhile isDigitChar = [] then
        some ((valNat ds : ℚ) + (valNat fds : ℚ) / ((10 : ℚ) ^ fds.length))
      else none
    | _ => none

/-- Model of JavaScript string-to-number conversion (the Number function
on strings): empty or all-whitespace is zero, otherwise the whole trimmed
string must be a signed decimal literal, else NaN. Exponent suffixes are
outside the repository's data domain and are not modelled. -/
def numOfStr (s : JStr) : Option ℚ :=
  match jsTrim s with
  | [] => some 0
  | c :: r =>
    if c = '-' then (parseUnsignedFull r).map (fun q => -q)
    else if c = '+' then parseUnsignedFull r
    else parseUnsignedFull (c :: r)

/-- Model of the JavaScript Number conversion: arrays convert through
their string form, objects are NaN. -/
def jsToNumber : JsVal → Option ℚ
  | .undef => none
  | .jsnull => some 0
  | .bool b => if b then some 1 else some 0
  | .num q => q
  | .str s => numOfStr s
  | .arrNil => numOfStr []
  | .arrCons h t => numOfStr (jsToString (.arrCons h t))
  | .objNil => none
  | .objCons _ _ _ => none

/-- Parse a leading unsigned decimal literal (digits with an optional
fractional part), ignoring any trailing text, as parseFloat consumes. -/
def parseUnsignedPrefix (cs : JStr) : Option ℚ :=
  let ds := cs.takeWhile isDigitChar
  let rest := cs.dropWhile isDigitChar
  match rest with
  | '.' :: fs =>
    let fds := fs.takeWhile isDigitChar
    if ds.isEmpty && fds.isEmpty then none
    else some ((valNat ds : ℚ) + (valNat fds : ℚ) / ((10 : ℚ) ^ fds.length))
  | _ => if ds.isEmpty then none else some ((valNat ds : ℚ))

/-- Model of the JavaScript parseFloat function: skip leading whitespace,
read an optional sign and a leading decimal literal; none is NaN.
Exponent suffixes are outside the repository's data domain. -/
def jsParseFloat (s : JStr) : Option ℚ :=
  match ltrimStr s with
  | [] => none
  | c :: r =>
    if c = '-' then (parseUnsignedPrefix r).map (fun q => -q)
    else if c = '+' then parseUnsignedPrefix r
    else parseUnsignedPrefix (c :: r)

/-- Model of JavaScript property access on a value: an object yields the
first binding of the key, anything else yields undefined (adequate for the
repository's accesses, which never read built-in properties). -/
def jsGet (v : JsVal) (key : JStr) : JsVal :=
  match v with
  | .objCons k val rest => if k == key then val else jsGet rest key
  | _ => JsVal.undef

/-- Model of JavaScript truthiness. -/
def jsTruthy : JsVal → Bool
  | .undef => false
  | .jsnull => false
  | .bool b => b
  | .num none => false
  | .num (some q) => !(q == 0)
  | .str s => !s.isEmpty
  | _ => true

/-- Whether a JavaScript value is an array, as Array.isArray tests. -/
def jsIsArray : JsVal → Bool
  | .arrNil => true
  | .arrCons _ _ => true
  | _ => false

/-- Whether a JavaScript value is a string, as a typeof test. -/
def jsIsString : JsVal → Bool
  | .str _ => true
  | _ => false

/-- Worker for the JavaScript String split method with a multi-character
separator; the fuel makes the recursion structural, and any fuel above
the string length is enough. -/
def splitSubFuel (sep : JStr) : Nat → JStr → List JStr
  | 0, s => [s]
  | _ + 1, [] => [[]]
  | fuel + 1, c :: cs =>
    if sep.isPrefixOf (c :: cs) ∧ sep ≠ [] then
      [] :: splitSubFuel sep fuel (cs.drop (sep.length - 1))
    else
      match splitSubFuel sep fuel cs with
      | [] => [[c]]
      | s :: ss => (c :: s) :: ss

/-- Model of the JavaScript String split method with a multi-character
separator (nonempty, as the repository always passes one). -/
def splitSub (sep : JStr) (s : JStr) : List JStr := splitSubFuel sep (s.length + 1) s

/-! ### Links and the export module -/

/-- A stored link: identifier, source and target, all natural numbers as
the repository's data domain provides. -/
structure Link where
  id : Nat
  source : Nat
  target : Nat
deriving DecidableEq

/-- The textual form of one link, the template of both the export module
and the server formatter: an opening parenthesis, the id, a colon and
space, the source, a space, the target, a closing parenthesis. -/
def renderLinkLN (l : Link) : JStr :=
  '(' :: (natToChars l.id ++ js ": " ++ natToChars l.source ++ js " " ++
    natToChars l.target ++ js ")")

/-- The server helper formatLinksAsLN: renders links one per line with no
trailing newline (the route handlers append one). -/
def formatLinksAsLN (links : List Link) : JStr :=
  joinSep (js "\n") (links.map renderLinkLN)

/-- The export function exportToLinksNotation: the empty or non-array
case yields a lone empty tuple line, otherwise one link per line with a
trailing newline. -/
def exportToLN (links : List Link) : JStr :=
  if links.isEmpty then js "()" ++ js "\n"
  else joinSep (js "\n") (links.map renderLinkLN) ++ js "\n"

/-- One link as the compact JSON text that JSON.stringify produces. -/
def compactLinkObj (l : Link) : JStr :=
  js "\x7b\"id\":" ++ natToChars l.id ++ js ",\"source\":" ++ natToChars l.source ++
    js ",\"target\":" ++ natToChars l.target ++ js "\x7d"

/-- One link as the pretty JSON text that JSON.stringify with indent two
produces for an array element at depth one. -/
def prettyLinkObj (l : Link) : JStr :=
  js "\x7b\n    \"id\": " ++ natToChars l.id ++ js ",\n    \"source\": " ++
    natToChars l.source ++ js ",\n    \"target\": " ++ natToChars l.target ++
    js "\n  \x7d"

/-- The export function exportToJSON: JSON.stringify of the link array,
pretty-printed with indent two unless pretty is false. -/
def exportToJSON (links : List Link) (pretty : Bool) : JStr :=
  if pretty then
    match links with
    | [] => js "[]"
    | _ :: _ => js "[\n  " ++ joinSep (js ",\n  ") (links.map prettyLinkObj) ++ js "\n]"
  else
    js "[" ++ joinSep (js ",") (links.map compactLinkObj) ++ js "]"

/-- The export function exportToCSV with a delimiter and optional header
row; an empty link set yields the header alone (or nothing without it). -/
def exportToCSV (links : List Link) (delim : JStr) (includeHeader : Bool) : JStr :=
  if links.isEmpty then
    if includeHeader then js "id" ++ delim ++ js "source" ++ delim ++ js "target" ++ js "\n"
    else []
  else
    let rows := links.map (fun l =>
      natToChars l.id ++ delim ++ natToChars l.source ++ delim ++ natToChars l.target)
    let all := if includeHeader then
      (js "id" ++ delim ++ js "source" ++ delim ++ js "target") :: rows else rows
    joinSep (js "\n") all ++ js "\n"

/-- The export dispatcher exportLinks, with its options at their default
values (pretty JSON, comma delimiter, header row), as the claims exercise
it; an unsupported format name is an error. -/
def exportLinks (links : List Link) (format : JStr) : Except JStr JStr :=
  let f := lowerStr format
  if f == js "ln" || f == js "links-notation" || f == js "links" then
    .ok (exportToLN links)
  else if f == js "json" then .ok (exportToJSON links true)
  else if f == js "csv" then .ok (exportToCSV links (js ",") true)
  else .error (js "Unsupported export format: " ++ format)

/-! ### The links-notation parser, modelled on the flat fragment

The external links-notation package parses the one-level link lines this
repository exchanges. The model splits into lines and reads each line as
an optional id label followed by space-separated values. -/

/-- A parsed links-notation item: the optional id label and the value
tokens (the id field of each parsed value in the library's output). -/
structure LNItem where
  id : Option JStr
  values : List JStr
deriving DecidableEq

/-- The space-separated nonempty tokens of a string. -/
def tokensOf (s : JStr) : List JStr :=
  (splitChar ' ' s).filter (fun t => !t.isEmpty)

/-- Parse one links-notation line of the flat fragment: a parenthesised
item with an optional colon-terminated label. -/
def parseLNLine (line : JStr) : Option LNItem :=
  match jsTrim line with
  | [] => none
  | c :: rest =>
    if c = '(' then
      match rest.reverse with
      | [] => none
      | d :: revInner =>
        if d = ')' then
          let inner := revInner.reverse
          if inner.any (fun c => c == ':') then
            let lab := inner.takeWhile (fun c => !(c == ':'))
            let after := (inner.dropWhile (fun c => !(c == ':'))).drop 1
            some ⟨some (jsTrim lab), tokensOf after⟩
          else
            some ⟨none, tokensOf inner⟩
        else none
    else none

/-- Model of the external links-notation Parser parse method on the flat
fragment: nonblank lines, each a parenthesised item. -/
def lnParse (content : JStr) : List LNItem :=
  ((splitChar '\n' content).filter (fun l => !(jsTrim l).isEmpty)).filterMap parseLNLine

/-- parseInt applied to an arbitrary JavaScript value goes through string
conversion first. -/
def jsParseIntVal (v : JsVal) : Option Int := jsParseInt (jsToString v)

/-- A parsed integer as a JavaScript number; NaN when parsing failed. -/
def numOfParse (o : Option Int) : JsVal := .num (o.map (fun i => (i : ℚ)))

/-- The import function importFromLinksNotation: parse the content and map
each item to a link object with integer-or-zero source and target and,
when the item has a label, an originalId. -/
def importFromLN (content : JStr) : List JsVal :=
  if content.isEmpty then []
  else
    (lnParse content).map (fun item =>
      let src : Int :=
        match item.values with
        | v0 :: _ => orZero (jsParseInt v0)
        | [] => 0
      let tgt : Int :=
        match item.values with
        | _ :: v1 :: _ => orZero (jsParseInt v1)
        | _ => 0
      let base := [(js "source", JsVal.num (some (src : ℚ))),
                   (js "target", JsVal.num (some (tgt : ℚ)))]
      match item.id with
      | some lab => jsObj (base ++ [(js "originalId", numOfParse (jsParseInt lab))])
      | none => jsObj base)

/-! ### A JSON parser, modelling JSON.parse

Escape sequences in strings and exponent parts of numbers are outside the
data this repository produces and are not modelled (such texts are
rejected); numbers are exact rationals. -/

/-- Skip JSON whitespace. -/
def skipWs (cs : JStr) : JStr := cs.dropWhile isWsChar

/-- Parse a JSON string body after the opening quote; escape-free. -/
def parseJStrLit (cs : JStr) : Option (JStr × JStr) :=
  let s := cs.takeWhile (fun c => !(c == '"'))
  match cs.dropWhile (fun c => !(c == '"')) with
  | [] => none
  | c :: rest =>
    if c = '"' then
      if s.any (fun x => x == '\\') then none else some (s, rest)
    else none

/-- Parse an unsigned JSON number (digits with optional fraction). -/
def parseJNum (cs : JStr) : Option (ℚ × JStr) :=
  let ds := cs.takeWhile isDigitChar
  let rest := cs.dropWhile isDigitChar
  if ds.isEmpty then none
  else
    match rest with
    | [] => some ((valNat ds : ℚ), [])
    | c :: fs =>
      if c = '.' then
        let fds := fs.takeWhile isDigitChar
        if fds.isEmpty then none
        else some ((valNat ds : ℚ) + (valNat fds : ℚ) / ((10 : ℚ) ^ fds.length),
          fs.dropWhile isDigitChar)
      else some ((valNat ds : ℚ), c :: fs)

mutual

/-- Parse one JSON value, returning it with the unconsumed suffix. -/
def parseJVal : Nat → JStr → Option (JsVal × JStr)
  | 0, _ => none
  | fuel + 1, cs =>
    match skipWs cs with
    | [] => none
    | c :: r =>
      if c = '[' then
        match skipWs r with
        | [] => none
        | c2 :: r2 =>
          if c2 = ']' then some (.arrNil, r2)
          else
            match parseJElems fuel (c2 :: r2) with
            | some (es, rest) => some (es, rest)
            | none => none
      else if c = '\x7b' then
        match skipWs r with
        | [] => none
        | c2 :: r2 =>
          if c2 = '\x7d' then some (.objNil, r2)
          else
            match parseJMembers fuel (c2 :: r2) with
            | some (fs, rest) => some (fs, rest)
            | none => none
      else if c = '"' then
        match parseJStrLit r with
        | some (s, rest) => some (.str s, rest)
        | none => none
      else if c = 't' then
        if (js "rue").isPrefixOf r then some (.bool true, r.drop 3) else none
      else if c = 'f' then
        if (js "alse").isPrefixOf r then some (.bool false, r.drop 4) else none
      else if c = 'n' then
        if (js "ull").isPrefixOf r then some (.jsnull, r.drop 3) else none
      else if c = '-' then
        match parseJNum r with
        | some (q, rest) => some (.num (some (-q)), rest)
        | none => none
      else if isDigitChar c then
        match parseJNum (c :: r) with
        | some (q, rest) => some (.num (some q), rest)
        | none => none
      else none

/-- Parse the elements of a nonempty JSON array after the opening
bracket, consuming the closing bracket; yields the array value. -/
def parseJElems : Nat → JStr → Option (JsVal × JStr)
  | 0, _ => none
  | fuel + 1, cs =>
    match parseJVal fuel cs with
    | none => none
    | some (v, rest) =>
      match skipWs rest with
      | [] => none
      | c :: r2 =>
        if c = ',' then
          match parseJElems fuel r2 with
          | some (es, r3) => some (.arrCons v es, r3)
          | none => none
        else if c = ']' then some (.arrCons v .arrNil, r2)
        else none

/-- Parse the members of a nonempty JSON object after the opening brace,
consuming the closing brace; yields the object value. -/
def parseJMembers : Nat → JStr → Option (JsVal × JStr)
  | 0, _ => none
  | fuel + 1, cs =>
    match skipWs cs with
    | [] => none
    | c :: r =>
      if c = '"' then
        match parseJStrLit r with
        | none => none
        | some (key, rest) =>
          match skipWs rest with
          | [] => none
          | c2 :: r2 =>
            if c2 = ':' then
              match parseJVal fuel r2 with
              | none => none
              | some (v, r3) =>
                match skipWs r3 with
                | [] => none
                | c3 :: r4 =>
                  if c3 = ',' then
                    match parseJMembers fuel r4 with
                    | some (fs, r5) => some (.objCons key v fs, r5)
                    | none => none
                  else if c3 = '\x7d' then some (.objCons key v .objNil, r4)
                  else none
            else none
      else none

end

/-- Model of JSON.parse: parse one value and require only whitespace to
remain; none models the thrown SyntaxError. -/
def jsonParse (s : JStr) : Option JsVal :=
  match parseJVal (2 * s.length + 4) s with
  | some (v, rest) => if (skipWs rest).isEmpty then some v else none
  | none => none

/-- The element mapping of importFromJSON: source and target coerced with
parseInt-or-zero, originalId present as a parsed number exactly when the
element has an id field. -/
def jsonImportItem (item : JsVal) : JsVal :=
  jsObj [(js "source", JsVal.num (some ((orZero (jsParseIntVal (jsGet item (js "source")))) : ℚ))),
         (js "target", JsVal.num (some ((orZero (jsParseIntVal (jsGet item (js "target")))) : ℚ))),
         (js "originalId",
           match jsGet item (js "id") with
           | .undef => .undef
           | v => numOfParse (jsParseIntVal v))]

/-- Property access as the import's element mapping evaluates it in
JavaScript: reading a property of null or undefined throws a TypeError,
modelled as none; any other value yields the jsGet access. -/
def jsGetEx (v : JsVal) (key : JStr) : Option JsVal :=
  match v with
  | .undef => none
  | .jsnull => none
  | _ => some (jsGet v key)

/-- The element mapping of importFromJSON with its throw path: the
property reads throw exactly when the element is null or undefined, and
otherwise build the mapped object. -/
def jsonImportItemEx (item : JsVal) : Option JsVal :=
  match jsGetEx item (js "source"), jsGetEx item (js "target"), jsGetEx item (js "id") with
  | some s, some t, some idv =>
    some (jsObj [(js "source", JsVal.num (some ((orZero (jsParseIntVal s)) : ℚ))),
                 (js "target", JsVal.num (some ((orZero (jsParseIntVal t)) : ℚ))),
                 (js "originalId",
                   match idv with
                   | .undef => .undef
                   | v => numOfParse (jsParseIntVal v))])
  | _, _, _ => none

/-- The array map of the import: the first throwing element aborts the
whole mapping, as an exception escapes Array map. -/
def jsonImportItems : List JsVal → Option (List JsVal)
  | [] => some []
  | v :: vs =>
    match jsonImportItemEx v with
    | none => none
    | some w =>
      match jsonImportItems vs with
      | none => none
      | some ws => some (w :: ws)

/-- The import function importFromJSON: empty content yields no links; a
parse failure, or a TypeError thrown while mapping an array element (the
property access of a null element), is caught and rethrown as the
invalid-JSON error; a non-array value is returned unchanged as the
single element; an array is mapped through the element coercion. -/
def importFromJSON (content : JStr) : Except JStr (List JsVal) :=
  if content.isEmpty then .ok []
  else
    match jsonParse content with
    | none => .error (js "Invalid JSON")
    | some d =>
      if jsIsArray d then
        match jsonImportItems (jsArrToList d) with
        | none => .error (js "Invalid JSON")
        | some ws => .ok ws
      else .ok [d]

/-! ### CSV import -/

/-- Indexed access as JavaScript performs it: out-of-range is undefined. -/
def fieldAt (fields : List JStr) (i : Int) : JsVal :=
  if i < 0 then .undef
  else
    match fields.get? i.toNat with
    | some f => .str f
    | none => JsVal.undef

/-- The lower-cased trimmed cells of the header row. -/
def csvHeaderCells (delim : JStr) (line : JStr) : List JStr :=
  (splitSub delim line).map (fun h => lowerStr (jsTrim h))

/-- The column position of a header name, with the import function's
fallback when absent (JavaScript indexOf yields minus one). -/
def csvIdxOf (cells : List JStr) (name : JStr) (fallback : Int) : Int :=
  match cells.findIdx? (fun h => h == name) with
  | some i => (i : Int)
  | none => fallback

/-- One data row of the CSV import: trimmed fields, integer-or-zero
source and target from their columns, and an originalId when the id
column exists and its field is nonempty. -/
def csvRow (delim : JStr) (idIdx srcIdx tgtIdx : Int) (line : JStr) : JsVal :=
  let fields := (splitSub delim line).map jsTrim
  let base := [(js "source", JsVal.num (some ((orZero (jsParseIntVal (fieldAt fields srcIdx))) : ℚ))),
               (js "target", JsVal.num (some ((orZero (jsParseIntVal (fieldAt fields tgtIdx))) : ℚ)))]
  if idIdx ≥ 0 && jsTruthy (fieldAt fields idIdx) then
    jsObj (base ++ [(js "originalId", numOfParse (jsParseIntVal (fieldAt fields idIdx)))])
  else jsObj base

/-- The import function importFromCSV: split into nonblank lines, read
the optional header row to locate the id, source and target columns
(falling back to positions one and two), and map each data row to a link
object. -/
def importFromCSV (content : JStr) (delim : JStr) (hasHeader : Bool) : List JsVal :=
  if content.isEmpty then []
  else
    let lines := (splitChar '\n' content).filter (fun l => !(jsTrim l).isEmpty)
    if lines.isEmpty then []
    else
      let cells := csvHeaderCells delim (lines.headD [])
      let idIdx : Int := if hasHeader then csvIdxOf cells (js "id") (-1) else 0
      let srcIdx : Int := if hasHeader then csvIdxOf cells (js "source") 1 else 1
      let tgtIdx : Int := if hasHeader then csvIdxOf cells (js "target") 2 else 2
      let dataLines := if hasHeader then lines.drop 1 else lines
      dataLines.map (csvRow delim idIdx srcIdx tgtIdx)

/-- The import dispatcher importLinks, with its options at their default
values (comma delimiter, header row), as the claims exercise it. -/
def importLinks (content : JStr) (format : JStr) : Except JStr (List JsVal) :=
  let f := lowerStr format
  if f == js "ln" || f == js "links-notation" || f == js "links" then
    .ok (importFromLN content)
  else if f == js "json" then importFromJSON content
  else if f == js "csv" then .ok (importFromCSV content (js ",") true)
  else .error (js "Unsupported import format: " ++ format)

/-- The format sniffer detectFormat: non-string or empty content is the
native notation; content starting with a bracket or brace that parses as
JSON is JSON; otherwise a first line containing a comma and not starting
with a parenthesis is tabular; otherwise native notation. -/
def detectFormat (content : JsVal) : JStr :=
  if !jsTruthy content || !jsIsString content then js "ln"
  else
    let trimmed := jsTrim (match content with | .str s => s | _ => [])
    if (jsStartsWith (js "[") trimmed || jsStartsWith (js "\x7b") trimmed)
        && (jsonParse trimmed).isSome then js "json"
    else
      let lines := splitChar '\n' trimmed
      if !lines.isEmpty && includesStr (js ",") (lines.headD [])
          && !jsStartsWith (js "(") (lines.headD []) then js "csv"
      else js "ln"

/-! ### The filters module -/

/-- A parsed filter, one record covering the fields the filters module
stores: the operator name, a value (string, number or null), an in-list,
between bounds (none is the null bound, an inner none is NaN), and the
negation and reference flags. -/
structure JsFilter where
  operator : JStr
  value : JsVal := .undef
  values : List JStr := []
  fromV : Option (Option ℚ) := none
  toV : Option (Option ℚ) := none
  negated : Bool := false
  isReference : Bool := false
deriving DecidableEq

/-- Worker for parseFilterValue on strings; the fuel makes the negation
recursion structural, and any fuel above the string length is enough. -/
def parseFilterStrFuel : Nat → JStr → JsFilter
  | 0, _ => { operator := js "eq", value := .str [] }
  | fuel + 1, s =>
    let t := jsTrim s
    if jsStartsWith (js "!") t then
      { parseFilterStrFuel fuel (t.drop 1) with negated := true }
    else if jsStartsWith (js "@") t then
      { operator := js "eq", value := numOfParse (jsParseInt (t.drop 1)), isReference := true }
    else if includesStr (js "..") t then
      let parts := (splitSub (js "..") t).map jsTrim
      let fromS := parts.getD 0 []
      let toS := parts.getD 1 []
      { operator := js "between",
        fromV := if fromS.isEmpty then none else some (jsParseFloat fromS),
        toV := if toS.isEmpty then none else some (jsParseFloat toS) }
    else if includesStr (js ",") t then
      { operator := js "in", values := (splitChar ',' t).map jsTrim }
    else if jsStartsWith (js ">=") t then
      { operator := js "gte", value := .num (jsParseFloat (t.drop 2)) }
    else if jsStartsWith (js "<=") t then
      { operator := js "lte", value := .num (jsParseFloat (t.drop 2)) }
    else if jsStartsWith (js ">") t then
      { operator := js "gt", value := .num (jsParseFloat (t.drop 1)) }
    else if jsStartsWith (js "<") t then
      { operator := js "lt", value := .num (jsParseFloat (t.drop 1)) }
    else if jsStartsWith (js "*") t && jsEndsWith (js "*") t then
      { operator := js "contains", value := .str ((t.drop 1).dropLast) }
    else if jsEndsWith (js "*") t then
      { operator := js "startsWith", value := .str t.dropLast }
    else if jsStartsWith (js "*") t then
      { operator := js "endsWith", value := .str (t.drop 1) }
    else
      { operator := js "eq", value := .str t }

/-- The filters module parseFilterValue: null and undefined parse to the
is-null filter, anything else is string-converted, trimmed and read for
the operator prefixes and shapes of the module. -/
def parseFilterValue (v : JsVal) : JsFilter :=
  match v with
  | .undef => { operator := js "isNull", value := .jsnull }
  | .jsnull => { operator := js "isNull", value := .jsnull }
  | v =>
    let s := jsToString v
    parseFilterStrFuel (s.length + 1) s

/-- Numeric strict greater-than as JavaScript compares: false when either
side is NaN. -/
def jsNumGT (a b : Option ℚ) : Bool :=
  match a, b with
  | some x, some y => decide (x > y)
  | _, _ => false

/-- Numeric greater-or-equal as JavaScript compares: false on NaN. -/
def jsNumGE (a b : Option ℚ) : Bool :=
  match a, b with
  | some x, some y => decide (x ≥ y)
  | _, _ => false

/-- The filters module applyFilter: compute the operator's result, then
flip it when the filter is negated. -/
def applyFilter (value : JsVal) (filter : JsFilter) : Bool :=
  let result :=
    if filter.operator == js "eq" then
      jsToString value == jsToString filter.value
    else if filter.operator == js "ne" then
      !(jsToString value == jsToString filter.value)
    else if filter.operator == js "gt" then
      jsNumGT (jsToNumber value) (jsToNumber filter.value)
    else if filter.operator == js "gte" then
      jsNumGE (jsToNumber value) (jsToNumber filter.value)
    else if filter.operator == js "lt" then
      jsNumGT (jsToNumber filter.value) (jsToNumber value)
    else if filter.operator == js "lte" then
      jsNumGE (jsToNumber filter.value) (jsToNumber value)
    else if filter.operator == js "contains" then
      includesStr (lowerStr (jsToString filter.value)) (lowerStr (jsToString value))
    else if filter.operator == js "startsWith" then
      jsStartsWith (lowerStr (jsToString filter.value)) (lowerStr (jsToString value))
    else if filter.operator == js "endsWith" then
      jsEndsWith (lowerStr (jsToString filter.value)) (lowerStr (jsToString value))
    else if filter.operator == js "in" then
      filter.values.any (fun v => jsToString value == v)
    else if filter.operator == js "notIn" then
      !(filter.values.any (fun v => jsToString value == v))
    else if filter.operator == js "between" then
      let numValue := jsToNumber value
      let fromOk := match filter.fromV with
        | none => true
        | some b => jsNumGE numValue b
      let toOk := match filter.toV with
        | none => true
        | some b => jsNumGE b numValue
      fromOk && toOk
    else if filter.operator == js "isNull" then
      value == .jsnull || value == .undef
    else if filter.operator == js "isNotNull" then
      !(value == .jsnull || value == .undef)
    else true
  if filter.negated then !result else result

/-- The filters module applyFilters with its default field accessor:
null, absent or empty filters return the items unchanged, otherwise each
item must pass every parsed per-field filter. -/
def applyFilters (items : List JsVal) (filters : Option (List (JStr × JsVal))) : List JsVal :=
  match filters with
  | none => items
  | some fs =>
    if fs.isEmpty then items
    else
      let parsed := fs.map (fun p => (p.1, parseFilterValue p.2))
      items.filter (fun item => parsed.all (fun pf => applyFilter (jsGet item pf.1) pf.2))

/-- The filters module filterLinks: applyFilters on link objects. -/
def filterLinks (links : List JsVal) (filters : Option (List (JStr × JsVal))) : List JsVal :=
  applyFilters links filters

/-! ### Route handler response logic

Each handler is modelled as a pure function from the request data and the
outcome of the awaited store or facade call to the response status and
text body; a rejected promise carries the thrown error message. -/

/-- The outcome of an awaited store or facade call. -/
inductive StoreResult (α : Type) where
  | ok (a : α)
  | err (msg : JStr)

/-- The error body template of every handler. -/
def errBody (m : JStr) : JStr := js "(error: '" ++ m ++ js "')" ++ js "\n"

/-- The test every catch block applies to the thrown message. -/
def clinkMissing (m : JStr) : Bool := includesStr (js "clink command not found") m

/-- The shared catch block: a missing backing process is 503, any other
store error is 500. -/
def catchBlock (m : JStr) : Nat × JStr :=
  if clinkMissing m then (503, errBody (js "link-cli (clink) not installed"))
  else (500, errBody m)

/-- The GET /links/:id handler: a NaN id parameter is rejected with 400
before the store is consulted; a missing link is 404; a found link is the
rendered line; a store error goes through the catch block. -/
def getLinkById (readLink : Int → StoreResult (Option Link)) (idParam : JStr) : Nat × JStr :=
  match jsParseInt idParam with
  | none => (400, errBody (js "invalid link id"))
  | some i =>
    match readLink i with
    | .ok (some l) => (200, formatLinksAsLN [l] ++ js "\n")
    | .ok none => (404, errBody (js "link not found"))
    | .err m => catchBlock m

/-- The GET /links handler: the empty store renders the empty tuple line,
otherwise the links render one per line. -/
def getLinksAll (readAll : StoreResult (List Link)) : Nat × JStr :=
  match readAll with
  | .ok links =>
    if links.length = 0 then (200, js "()" ++ js "\n")
    else (200, formatLinksAsLN links ++ js "\n")
  | .err m => catchBlock m

/-- The DELETE /links/:id handler: a NaN id is 400, a successful deletion
is acknowledged with the fixed ok body. -/
def deleteLinkById (deleteLink : Int → StoreResult Unit) (idParam : JStr) : Nat × JStr :=
  match jsParseInt idParam with
  | none => (400, errBody (js "invalid link id"))
  | some i =>
    match deleteLink i with
    | .ok _ => (200, js "(deleted: ok)" ++ js "\n")
    | .err m => catchBlock m

/-- The POST /ilinks/count handler: the restriction is the body field or
null, and a successful count is rendered as a count line. -/
def ilinksCount (body : JsVal) (count : JsVal → StoreResult Nat) : Nat × JStr :=
  let restriction :=
    if jsTruthy (jsGet body (js "restriction")) then jsGet body (js "restriction")
    else .jsnull
  match count restriction with
  | .ok n => (200, js "(count: " ++ jsToString (.num (some (n : ℚ))) ++ js ")" ++ js "\n")
  | .err m => catchBlock m

/-- The validation step of the POST /ilinks/create handler: either the
400 rejection, issued without consulting the facade, or the delegation to
the facade's create with the request's substitution. -/
inductive CreateAction where
  | reject (status : Nat) (body : JStr)
  | create (substitution : JsVal)
deriving DecidableEq

/-- The POST /ilinks/create handler's validation: a missing, non-array or
short substitution is rejected with 400; otherwise creation is delegated
with that substitution. -/
def ilinksCreateAction (body : JsVal) : CreateAction :=
  let substitution := jsGet body (js "substitution")
  if !jsTruthy substitution || !jsIsArray substitution || jsArrLen substitution < 2 then
    .reject 400 (errBody (js "substitution must be array [source, target]"))
  else .create substitution

/-- The POST /ilinks/delete handler: a missing or non-array restriction
is 400; a successful deletion renders the returned id. -/
def ilinksDelete (body : JsVal) (deleteOp : JsVal → StoreResult Int) : Nat × JStr :=
  let restriction := jsGet body (js "restriction")
  if !jsTruthy restriction || !jsIsArray restriction then
    (400, errBody (js "restriction must be array"))
  else
    match deleteOp restriction with
    | .ok i => (200, js "(deleted: " ++ jsToString (.num (some (i : ℚ))) ++ js ")" ++ js "\n")
    | .err m => catchBlock m

/-! ### The recursive structure codec

Modelled from the spec: the codec (RecursiveLinks in the external
links-client package) is not under the repository sources, only its route
callers are. Sections three and four of the specification prescribe it:
sequences are encoded as nested chains of binary links over a store of
(id, source, target) triples with monotonic id allocation, and reference
maps are encoded two-phase, reserving one placeholder link per key before
encoding entry values so that cross-references use the reserved ids. The
canonical encoding documented here: a node link with source zero is a
terminal (target zero is the empty sequence, target n plus one is the
scalar n); a node link with nonzero source is a chain cell whose source
is the head node and whose target is the tail node. -/

/-- A stored link of the engine. -/
structure SLink where
  id : Nat
  source : Nat
  target : Nat
deriving DecidableEq

/-- The store: links in creation order, ids allocated monotonically from
one. -/
abbrev Store := List SLink

/-- Read a link by id. -/
def lookupLink (σ : Store) (i : Nat) : Option SLink :=
  σ.find? (fun l => l.id == i)

/-- Create a link with a fresh id (monotonic allocation). -/
def createLink (σ : Store) (s t : Nat) : Store × Nat :=
  (σ ++ [⟨σ.length + 1, s, t⟩], σ.length + 1)

/-- Overwrite the source and target of the link with the given id. -/
def updateLink (σ : Store) (i s t : Nat) : Store :=
  σ.map (fun l => if l.id = i then ⟨l.id, s, t⟩ else l)

/-- A recursive value: finite sequences (as chains) of scalars. -/
inductive RValue where
  | scalar (n : Nat)
  | rnil
  | rcons (head tail : RValue)
deriving DecidableEq

/-- Decode fuel adequate for a value. -/
def sizeR : RValue → Nat
  | .scalar _ => 1
  | .rnil => 1
  | .rcons h t => sizeR h + sizeR t + 1

/-- Modelled from the spec: encode a recursive value into the store,
returning the extended store and the root id (encodeSequence). -/
def encodeR : RValue → Store → Store × Nat
  | .scalar n, σ => createLink σ 0 (n + 1)
  | .rnil, σ => createLink σ 0 0
  | .rcons h t, σ =>
    let p1 := encodeR h σ
    let p2 := encodeR t p1.1
    createLink p2.1 p1.2 p2.2

/-- Modelled from the spec: decode the value rooted at an id
(decodeToSequence); the fuel makes the recursion structural and any fuel
at least the value's size is enough. -/
def decodeR : Nat → Store → Nat → Option RValue
  | 0, _, _ => none
  | fuel + 1, σ, i =>
    match lookupLink σ i with
    | none => none
    | some l =>
      if l.source = 0 then
        if l.target = 0 then some .rnil else some (.scalar (l.target - 1))
      else
        match decodeR fuel σ l.source, decodeR fuel σ l.target with
        | some h, some t => some (.rcons h t)
        | _, _ => none

/-- A reference-map entry value: sequences of scalars that may embed
references to other keys of the map (keys are entry indices). -/
inductive MValue where
  | scalar (n : Nat)
  | mnil
  | mcons (head tail : MValue)
  | ref (k : Nat)
deriving DecidableEq

/-- An entry's value is itself a sequence or scalar, not a bare
reference: references occur embedded within sequence values, as in the
specification's reference-map example. -/
def TopNotRef : MValue → Bool
  | .ref _ => false
  | _ => true

/-- Whether every embedded reference names a key of the map (no dangling
external references). -/
def RefsIn (n : Nat) : MValue → Bool
  | .scalar _ => true
  | .mnil => true
  | .mcons h t => RefsIn n h && RefsIn n t
  | .ref j => decide (j < n)

/-- Whether every embedded reference strictly descends in rank: the
witness that following references terminates. Forward references are
permitted; a cyclic reference chain admits no rank. -/
def RefsRanked (rank : Nat → Nat) (r : Nat) : MValue → Bool
  | .scalar _ => true
  | .mnil => true
  | .mcons h t => RefsRanked rank r h && RefsRanked rank r t
  | .ref j => decide (rank j < r)

/-- The modelled class of resolvable reference maps: each entry is a
sequence or scalar, every embedded reference names a key of the map,
and the rank function strictly descends across references, so that
resolution terminates; forward references are included, and cyclic
ones, whose resolution would not terminate, are excluded. -/
def ResolvableBy (entries : List MValue) (rank : Nat → Nat) : Prop :=
  ∀ i, i < entries.length →
    TopNotRef (entries.getD i .mnil) = true ∧
    RefsIn entries.length (entries.getD i .mnil) = true ∧
    RefsRanked rank (rank i) (entries.getD i .mnil) = true

/-- Modelled from the spec: encode an embedded value during phase two; a
reference contributes no links and yields the reserved id of its key. -/
def encodeEmb (R : List Nat) : MValue → Store → Store × Nat
  | .scalar n, σ => createLink σ 0 (n + 1)
  | .mnil, σ => createLink σ 0 0
  | .mcons h t, σ =>
    let p1 := encodeEmb R h σ
    let p2 := encodeEmb R t p1.1
    createLink p2.1 p1.2 p2.2
  | .ref j, σ => (σ, R.getD j 0)

/-- Modelled from the spec: finalise one entry in phase two — encode its
children, then update the entry's reserved link with the resolved
content. A bare-reference entry is outside the modelled class and
finalises to the empty sequence. -/
def encodeEntryTop (R : List Nat) (i : Nat) (v : MValue) (σ : Store) : Store :=
  match v with
  | .scalar n => updateLink σ (R.getD i 0) 0 (n + 1)
  | .mnil => updateLink σ (R.getD i 0) 0 0
  | .mcons h t =>
    let p1 := encodeEmb R h σ
    let p2 := encodeEmb R t p1.1
    updateLink p2.1 (R.getD i 0) p1.2 p2.2
  | .ref _ => updateLink σ (R.getD i 0) 0 0

/-- Phase two: finalise the indexed entries in listing order. -/
def finalizeEntries (R : List Nat) : List (Nat × MValue) → Store → Store
  | [], σ => σ
  | p :: rest, σ => finalizeEntries R rest (encodeEntryTop R p.1 p.2 σ)

/-- Modelled from the spec: encodeReferenceMap — phase one reserves one
placeholder link per key in listing order, phase two encodes each entry's
value substituting reserved ids for references and finalises the
reserved links; returns the store and the key-to-id mapping. -/
def encodeReferenceMap (entries : List MValue) : Store × List Nat :=
  let n := entries.length
  let σ0 : Store := (List.range n).map (fun i => ⟨i + 1, 0, 0⟩)
  let R : List Nat := (List.range n).map (fun i => i + 1)
  (finalizeEntries R entries.enum σ0, R)

/-- Modelled from the spec: decodeToReferenceMap — decode every key's
link back to a value. -/
def decodeToReferenceMap (fuel : Nat) (σ : Store) (R : List Nat) : List (Option RValue) :=
  R.map (decodeR fuel σ)

/-- The reference-free meaning of an entry value, given a resolver for
the entries that references name. -/
def resolveInG (deeper : Nat → RValue) : MValue → RValue
  | .scalar n => .scalar n
  | .mnil => .rnil
  | .mcons h t => .rcons (resolveInG deeper h) (resolveInG deeper t)
  | .ref j => deeper j

/-- The reference-free meaning of one entry, by fuelled recursion over
embedded references; any fuel above the entry's rank is enough when
references strictly descend in rank. -/
def resolveEntryG (entries : List MValue) : Nat → Nat → RValue
  | 0, _ => .rnil
  | fuel + 1, i => resolveInG (fun j => resolveEntryG entries fuel j) (entries.getD i .mnil)

/-- The reference-free resolution of entry i of a map ranked by rank:
each reference is replaced by the resolution of the entry it names. -/
def resolveR (entries : List MValue) (rank : Nat → Nat) (i : Nat) : RValue :=
  resolveEntryG entries (rank i + 1) i

/-- A phase-two encoding derivation: id i roots the encoding of an
entry value in the store, reading links only at ids satisfying P; an
embedded reference contributes no link of its own and stands as the
reserved id of the key it names. -/
inductive EncodesVal (P : Nat → Prop) (σ : Store) (n : Nat) : Nat → MValue → Prop where
  | scalar (i m : Nat) : P i → lookupLink σ i = some ⟨i, 0, m + 1⟩ →
      EncodesVal P σ n i (.scalar m)
  | mnil (i : Nat) : P i → lookupLink σ i = some ⟨i, 0, 0⟩ →
      EncodesVal P σ n i .mnil
  | mcons (i s t : Nat) (h tl : MValue) : P i → lookupLink σ i = some ⟨i, s, t⟩ →
      s ≠ 0 → EncodesVal P σ n s h → EncodesVal P σ n t tl →
      EncodesVal P σ n i (.mcons h tl)
  | ref (k : Nat) : k < n → EncodesVal P σ n (k + 1) (.ref k)

/-- The rejection condition of the create handler as the specification
words it: the substitution is missing, not an array, or shorter than two
elements. -/
def subBad (body : JsVal) : Bool :=
  let s := jsGet body (js "substitution")
  !jsIsArray s || jsArrLen s < 2

/-- The store invariant of the codec model: ids are exactly one through
the store length, in creation order. -/
def IdsCanonical (σ : Store) : Prop :=
  σ.map (fun l => l.id) = List.range' 1 σ.length

/-- A decode derivation whose every node id satisfies the predicate: the
witness that an id decodes to a value reading only links at such ids. -/
inductive DecodesToIn (P : Nat → Prop) (σ : Store) : Nat → RValue → Prop where
  | scalar (i n : Nat) : P i → lookupLink σ i = some ⟨i, 0, n + 1⟩ →
      DecodesToIn P σ i (.scalar n)
  | rnil (i : Nat) : P i → lookupLink σ i = some ⟨i, 0, 0⟩ →
      DecodesToIn P σ i .rnil
  | rcons (i s t : Nat) (hv tv : RValue) : P i → lookupLink σ i = some ⟨i, s, t⟩ →
      s ≠ 0 → DecodesToIn P σ s hv → DecodesToIn P σ t tv →
      DecodesToIn P σ i (.rcons hv tv)

/-- One data row of the tabular export with the comma delimiter. -/
def rowOf (l : Link) : JStr :=
  natToChars l.id ++ js "," ++ natToChars l.source ++ js "," ++ natToChars l.target


/-! ### Round-trip statement helpers -/

/-- A string whose head is not a digit has no leading digit run. -/
def headNotDigit (s : JStr) : Bool :=
  match s with
  | [] => true
  | c :: _ => !isDigitChar c

/-- Whether a string cannot extend a decimal number literal at its head:
its first character is neither a digit nor a dot. -/
def headNumSafe (s : JStr) : Bool :=
  match s with
  | [] => true
  | c :: _ => !isDigitChar c && !(c == '.')

/-- The link object every import path produces for an exported link:
source and target recovered, the original id remembered. -/
def importedLinkObj (l : Link) : JsVal :=
  jsObj [(js "source", .num (some (l.source : ℚ))),
         (js "target", .num (some (l.target : ℚ))),
         (js "originalId", .num (some (l.id : ℚ)))]

/-- The JavaScript value JSON.parse yields for one exported link object. -/
def linkJson (l : Link) : JsVal :=
  jsObj [(js "id", .num (some (l.id : ℚ))),
         (js "source", .num (some (l.source : ℚ))),
         (js "target", .num (some (l.target : ℚ)))]


/-! ### Lemmas about digits and decimal printing -/

theorem digitChar_isDigit (d : Nat) : isDigitChar (digitChar d) = true := by
  match d with
  | 0 | 1 | 2 | 3 | 4 | 5 | 6 | 7 | 8 | 9 => rfl
  | n + 10 => rfl

theorem digitChar_toNat (d : Nat) (h : d < 10) : (digitChar d).toNat = 48 + d := by
  interval_cases d <;> rfl

theorem natToCharsAux_acc (f : Nat) :
    ∀ n acc, natToCharsAux f n acc = natToCharsAux f n [] ++ acc := by
  induction f with
  | zero => intro n acc; rfl
  | succ f ih =>
    intro n acc
    by_cases h : n = 0
    · simp [natToCharsAux, h]
    · rw [natToCharsAux, if_neg h, natToCharsAux, if_neg h]
      rw [ih (n / 10) (digitChar (n % 10) :: acc), ih (n / 10) [digitChar (n % 10)]]
      simp

theorem natToCharsAux_digits (f : Nat) :
    ∀ n c, c ∈ natToCharsAux f n [] → isDigitChar c = true := by
  induction f with
  | zero => intro n c hc; simp [natToCharsAux] at hc
  | succ f ih =>
    intro n c hc
    by_cases h : n = 0
    · simp [natToCharsAux, h] at hc
    · rw [natToCharsAux, if_neg h, natToCharsAux_acc] at hc
      rcases List.mem_append.1 hc with h1 | h1
      · exact ih (n / 10) c h1
      · simp at h1
        subst h1
        exact digitChar_isDigit _

theorem natToChars_digits (n : Nat) : ∀ c ∈ natToChars n, isDigitChar c = true := by
  intro c hc
  unfold natToChars at hc
  by_cases h : n = 0
  · simp [h] at hc
    subst hc; rfl
  · simp [h] at hc
    exact natToCharsAux_digits (n + 1) n c hc

theorem natToChars_ne_nil (n : Nat) : natToChars n ≠ [] := by
  unfold natToChars
  by_cases h : n = 0
  · simp [h]
  · simp [h]
    rw [natToCharsAux, if_neg h, natToCharsAux_acc]
    simp

theorem valNat_append_digit (ds : List Char) (c : Char) :
    valNat (ds ++ [c]) = valNat ds * 10 + (c.toNat - 48) := by
  simp [valNat, List.foldl_append]

theorem valNat_natToCharsAux (f : Nat) :
    ∀ n, n < f → valNat (natToCharsAux f n []) = n := by
  induction f with
  | zero => intro n hn; omega
  | succ f ih =>
    intro n hn
    by_cases h : n = 0
    · simp [natToCharsAux, h, valNat]
    · rw [natToCharsAux, if_neg h, natToCharsAux_acc, valNat_append_digit]
      rw [digitChar_toNat _ (Nat.mod_lt _ (by omega))]
      have hlt : n / 10 < f := by
        have h1 : n / 10 < n := Nat.div_lt_self (Nat.pos_of_ne_zero h) (by omega)
        omega
      rw [ih (n / 10) hlt]
      omega

theorem valNat_natToChars (n : Nat) : valNat (natToChars n) = n := by
  unfold natToChars
  by_cases h : n = 0
  · simp [h, valNat]
  · simp [h]
    exact valNat_natToCharsAux (n + 1) n (by omega)

/-- A list all of whose characters satisfy the predicate is taken whole by
takeWhile, continuing into the suffix. -/
theorem takeWhile_append_all {p : Char → Bool} (l1 l2 : List Char)
    (h : ∀ c ∈ l1, p c = true) :
    (l1 ++ l2).takeWhile p = l1 ++ l2.takeWhile p := by
  induction l1 with
  | nil => simp
  | cons c cs ih =>
    simp only [List.cons_append, List.takeWhile]
    rw [h c (List.mem_cons_self c cs)]
    simp [ih (fun x hx => h x (List.mem_cons_of_mem c hx))]

theorem dropWhile_append_all {p : Char → Bool} (l1 l2 : List Char)
    (h : ∀ c ∈ l1, p c = true) :
    (l1 ++ l2).dropWhile p = l2.dropWhile p := by
  induction l1 with
  | nil => simp
  | cons c cs ih =>
    simp only [List.cons_append, List.dropWhile]
    rw [h c (List.mem_cons_self c cs)]
    simp [ih (fun x hx => h x (List.mem_cons_of_mem c hx))]

theorem takeWhile_digits_none (s : JStr) (h : headNotDigit s = true) :
    s.takeWhile isDigitChar = [] := by
  match s with
  | [] => rfl
  | c :: cs =>
    simp [headNotDigit] at h
    simp [List.takeWhile, h]

theorem parseDigits_natToChars (n : Nat) (rest : JStr) (h : headNotDigit rest = true) :
    parseDigits (natToChars n ++ rest) = some n := by
  unfold parseDigits
  rw [takeWhile_append_all _ _ (natToChars_digits n), takeWhile_digits_none rest h]
  simp [natToChars_ne_nil n, List.isEmpty_iff, valNat_natToChars]

theorem isDigitChar_not_ws (c : Char) (h : isDigitChar c = true) : isWsChar c = false := by
  by_contra hne
  have hws : isWsChar c = true := by
    cases hx : isWsChar c
    · exact absurd hx hne
    · rfl
  simp only [isWsChar, Bool.or_eq_true, decide_eq_true_eq] at hws
  rcases hws with ((he | he) | he) | he <;> subst he <;> exact absurd h (by decide)

theorem jsParseInt_natToChars (n : Nat) (rest : JStr) (h : headNotDigit rest = true) :
    jsParseInt (natToChars n ++ rest) = some (n : Int) := by
  unfold jsParseInt
  have hne := natToChars_ne_nil n
  have hlt : ltrimStr (natToChars n ++ rest) = natToChars n ++ rest := by
    unfold ltrimStr
    match hm : natToChars n with
    | [] => exact absurd hm hne
    | c :: cs =>
      have hd : isDigitChar c = true := by
        apply natToChars_digits n
        rw [hm]; exact List.mem_cons_self c cs
      simp [List.dropWhile, isDigitChar_not_ws c hd]
  rw [hlt]
  have hhd : ∀ c cs, natToChars n = c :: cs → isDigitChar c = true := by
    intro c cs hm
    apply natToChars_digits n
    rw [hm]; exact List.mem_cons_self c cs
  match hm : natToChars n with
  | [] => exact absurd hm hne
  | c :: cs =>
    have hd := hhd c cs hm
    have hc1 : c ≠ '-' := fun he => absurd (he ▸ hd) (by decide)
    have hc2 : c ≠ '+' := fun he => absurd (he ▸ hd) (by decide)
    have hp : parseDigits ((c :: cs) ++ rest) = some n := by
      rw [← hm]; exact parseDigits_natToChars n rest h
    simp only [List.cons_append]
    simp only [List.cons_append] at hp
    simp [hc1, hc2, hp]

theorem jsParseInt_natToChars_nil (n : Nat) :
    jsParseInt (natToChars n) = some (n : Int) := by
  have := jsParseInt_natToChars n [] rfl
  simpa using this

/-! ### Lemmas about split, join and trim -/

theorem splitChar_no_sep (sep : Char) (s : JStr) (h : ∀ c ∈ s, c ≠ sep) :
    splitChar sep s = [s] := by
  induction s with
  | nil => rfl
  | cons c cs ih =>
    rw [splitChar]
    rw [if_neg (h c (List.mem_cons_self c cs))]
    rw [ih (fun x hx => h x (List.mem_cons_of_mem c hx))]

theorem splitChar_append_sep (sep : Char) (a b : JStr) (h : ∀ c ∈ a, c ≠ sep) :
    splitChar sep (a ++ sep :: b) = a :: splitChar sep b := by
  induction a with
  | nil => simp [splitChar]
  | cons c cs ih =>
    simp only [List.cons_append]
    rw [splitChar, if_neg (h c (List.mem_cons_self c cs))]
    rw [ih (fun x hx => h x (List.mem_cons_of_mem c hx))]

theorem joinSep_cons (sep : JStr) (s : JStr) (rest : List JStr) (h : rest ≠ []) :
    joinSep sep (s :: rest) = s ++ sep ++ joinSep sep rest := by
  match rest with
  | [] => exact absurd rfl h
  | r :: rs => rfl

theorem splitChar_joinSep (sep : Char) (rows : List JStr)
    (hall : ∀ r ∈ rows, ∀ c ∈ r, c ≠ sep) (h : rows ≠ []) :
    splitChar sep (joinSep [sep] rows) = rows := by
  induction rows with
  | nil => exact absurd rfl h
  | cons r rs ih =>
    match rs with
    | [] =>
      simp only [joinSep]
      exact splitChar_no_sep sep r (hall r (List.mem_cons_self r []))
    | q :: qs =>
      rw [joinSep_cons _ _ _ (by simp)]
      rw [List.append_assoc, List.singleton_append]
      rw [splitChar_append_sep sep r _ (hall r (List.mem_cons_self r _))]
      rw [ih (fun x hx => hall x (List.mem_cons_of_mem r hx)) (by simp)]

theorem joinSep_append_single (sep : JStr) (rows : List JStr) (x : JStr) (h : rows ≠ []) :
    joinSep sep (rows ++ [x]) = joinSep sep rows ++ sep ++ x := by
  induction rows with
  | nil => exact absurd rfl h
  | cons r rs ih =>
    match rs with
    | [] => simp [joinSep]
    | q :: qs =>
      rw [List.cons_append, joinSep_cons _ _ _ (by simp), joinSep_cons _ _ _ (by simp)]
      rw [ih (by simp)]
      simp

theorem dropWhile_append (p : Char → Bool) (l1 l2 : List Char) :
    (l1 ++ l2).dropWhile p =
      if (l1.dropWhile p).isEmpty then l2.dropWhile p else l1.dropWhile p ++ l2 := by
  induction l1 with
  | nil => simp
  | cons c cs ih =>
    simp only [List.cons_append, List.dropWhile]
    cases hp : p c with
    | true => simpa using ih
    | false => simp

theorem dropWhile_dropWhile (p : Char → Bool) (l : List Char) :
    (l.dropWhile p).dropWhile p = l.dropWhile p := by
  induction l with
  | nil => rfl
  | cons c cs ih =>
    simp only [List.dropWhile]
    cases hp : p c with
    | true => simpa using ih
    | false => simp [List.dropWhile, hp]

theorem dropWhile_nil_iff (p : Char → Bool) (l : List Char) :
    l.dropWhile p = [] ↔ ∀ c ∈ l, p c = true := by
  induction l with
  | nil => simp
  | cons c cs ih =>
    simp only [List.dropWhile]
    cases hp : p c with
    | true => simp [hp, ih]
    | false => simp [hp]

theorem rtrimStr_nil_eq (s : JStr) (h : rtrimStr s = []) :
    s.reverse.dropWhile isWsChar = [] := by
  unfold rtrimStr at h
  simpa using congrArg List.reverse h

theorem rtrimStr_cons_of_nil (c : Char) (s : JStr) (h : rtrimStr s = []) :
    rtrimStr (c :: s) = if isWsChar c then [] else [c] := by
  unfold rtrimStr
  rw [List.reverse_cons, dropWhile_append, rtrimStr_nil_eq s h]
  cases hw : isWsChar c <;> simp [List.dropWhile, hw]

theorem rtrimStr_cons_of_ne (c : Char) (s : JStr) (h : rtrimStr s ≠ []) :
    rtrimStr (c :: s) = c :: rtrimStr s := by
  have hne : s.reverse.dropWhile isWsChar ≠ [] := by
    intro hx
    exact h (by unfold rtrimStr; rw [hx]; rfl)
  unfold rtrimStr
  rw [List.reverse_cons, dropWhile_append]
  rw [if_neg (by simpa [List.isEmpty_iff] using hne)]
  simp

theorem ltrimStr_cons_nonws (c : Char) (s : JStr) (h : isWsChar c = false) :
    ltrimStr (c :: s) = c :: s := by
  simp [ltrimStr, List.dropWhile, h]

theorem ltrimStr_cons_ws (c : Char) (s : JStr) (h : isWsChar c = true) :
    ltrimStr (c :: s) = ltrimStr s := by
  simp [ltrimStr, List.dropWhile, h]

theorem rtrimStr_nil_iff (s : JStr) : rtrimStr s = [] ↔ ∀ c ∈ s, isWsChar c = true := by
  unfold rtrimStr
  rw [List.reverse_eq_nil_iff, dropWhile_nil_iff]
  constructor
  · intro h c hc
    exact h c (List.mem_reverse.2 hc)
  · intro h c hc
    exact h c (List.mem_reverse.1 hc)

theorem ltrimStr_all_ws (s : JStr) (h : ∀ c ∈ s, isWsChar c = true) :
    ltrimStr s = [] := by
  unfold ltrimStr
  exact (dropWhile_nil_iff _ _).2 h

theorem ltrimStr_rtrimStr_comm (s : JStr) :
    ltrimStr (rtrimStr s) = rtrimStr (ltrimStr s) := by
  induction s with
  | nil => rfl
  | cons c cs ih =>
    cases hw : isWsChar c with
    | false =>
      rw [ltrimStr_cons_nonws c cs hw]
      by_cases he : rtrimStr cs = []
      · rw [rtrimStr_cons_of_nil c cs he, hw]
        simp only [Bool.false_eq_true, if_false]
        exact ltrimStr_cons_nonws c [] hw
      · rw [rtrimStr_cons_of_ne c cs he, ltrimStr_cons_nonws c _ hw]
    | true =>
      rw [ltrimStr_cons_ws c cs hw]
      by_cases he : rtrimStr cs = []
      · rw [rtrimStr_cons_of_nil c cs he, hw]
        simp only [if_true]
        have hall : ∀ x ∈ cs, isWsChar x = true := (rtrimStr_nil_iff cs).1 he
        rw [ltrimStr_all_ws cs hall]
        rfl
      · rw [rtrimStr_cons_of_ne c cs he, ltrimStr_cons_ws c _ hw, ih]

theorem rtrimStr_idem (s : JStr) : rtrimStr (rtrimStr s) = rtrimStr s := by
  unfold rtrimStr
  rw [List.reverse_reverse, dropWhile_dropWhile]

theorem jsTrim_rtrimStr (s : JStr) : jsTrim (rtrimStr s) = jsTrim s := by
  unfold jsTrim
  rw [ltrimStr_rtrimStr_comm s, rtrimStr_idem]

theorem jsTrim_cons_nonws (c : Char) (s : JStr) (h : isWsChar c = false) :
    jsTrim (c :: s) = rtrimStr (c :: s) := by
  unfold jsTrim
  rw [ltrimStr_cons_nonws c s h]

/-! ### Rendering lemmas -/

theorem digit_ne (c c0 : Char) (h : isDigitChar c = true) (h0 : isDigitChar c0 = false) :
    c ≠ c0 := by
  intro he
  subst he
  rw [h] at h0
  exact Bool.noConfusion h0

theorem renderLinkLN_chars (l : Link) :
    ∀ c ∈ renderLinkLN l, isDigitChar c = true ∨ c ∈ ['(', ':', ' ', ')'] := by
  intro c hc
  unfold renderLinkLN at hc
  have e1 : js ": " = [':', ' '] := rfl
  have e2 : js " " = [' '] := rfl
  have e3 : js ")" = [')'] := rfl
  rw [e1, e2, e3] at hc
  rcases List.mem_cons.1 hc with h | h
  · right; rw [h]; decide
  · rcases List.mem_append.1 h with h | h
    · rcases List.mem_append.1 h with h | h
      · rcases List.mem_append.1 h with h | h
        · rcases List.mem_append.1 h with h | h
          · rcases List.mem_append.1 h with h | h
            · exact Or.inl (natToChars_digits _ _ h)
            · right
              rcases List.mem_cons.1 h with h | h
              · rw [h]; decide
              · simp at h; rw [h]; decide
          · exact Or.inl (natToChars_digits _ _ h)
        · right
          simp at h
          rw [h]; decide
      · exact Or.inl (natToChars_digits _ _ h)
    · right
      simp at h
      rw [h]; decide

theorem renderLinkLN_ne (l : Link) (c0 : Char) (h0 : isDigitChar c0 = false)
    (hn : c0 ∉ ['(', ':', ' ', ')']) : ∀ c ∈ renderLinkLN l, c ≠ c0 := by
  intro c hc he
  subst he
  rcases renderLinkLN_chars l c hc with h | h
  · rw [h0] at h; exact Bool.noConfusion h
  · exact hn h

theorem splitChar_formatLinks (L : List Link) (hL : L ≠ []) :
    splitChar '\n' (formatLinksAsLN L ++ js "\n") = L.map renderLinkLN ++ [[]] := by
  unfold formatLinksAsLN
  have e : js "\n" = ['\n'] := rfl
  rw [e]
  have h1 : joinSep ['\n'] (L.map renderLinkLN) ++ ['\n'] =
      joinSep ['\n'] (L.map renderLinkLN ++ [[]]) := by
    rw [joinSep_append_single ['\n'] (L.map renderLinkLN) [] (by simp [hL])]
    simp
  rw [h1]
  rw [splitChar_joinSep]
  · intro r hr c hc
    rcases List.mem_append.1 hr with h | h
    · rcases List.mem_map.1 h with ⟨l, _, rfl⟩
      exact renderLinkLN_ne l '\n' (by decide) (by decide) c hc
    · simp at h
      subst h
      simp at hc
  · simp

/-- C3: every link rendered to text, by the export to native notation and
by the server's link responses, is exactly the canonical line for that
link, one link per line; the empty result set renders as the single line
of an empty tuple. -/
theorem C3_canonical_link_rendering :
    (∀ L : List Link, L ≠ [] →
      splitChar '\n' (exportToLN L) = L.map renderLinkLN ++ [[]] ∧
      splitChar '\n' (getLinksAll (.ok L)).2 = L.map renderLinkLN ++ [[]]) ∧
    (splitChar '\n' (exportToLN []) = [js "()", []] ∧
      splitChar '\n' (getLinksAll (.ok [])).2 = [js "()", []]) ∧
    (∀ (readLink : Int → StoreResult (Option Link)) (idParam : JStr) (i : Int) (l : Link),
      jsParseInt idParam = some i → readLink i = .ok (some l) →
      (getLinkById readLink idParam).2 = renderLinkLN l ++ js "\n") := by
  refine ⟨?_, ⟨by decide, by decide⟩, ?_⟩
  · intro L hL
    constructor
    · unfold exportToLN
      rw [if_neg (by simp [List.isEmpty_iff, hL])]
      exact splitChar_formatLinks L hL
    · show splitChar '\n'
        (if L.length = 0 then ((200, js "()" ++ js "\n") : Nat × JStr)
         else (200, formatLinksAsLN L ++ js "\n")).2 = L.map renderLinkLN ++ [[]]
      rw [if_neg (by simp [List.length_eq_zero, hL])]
      exact splitChar_formatLinks L hL
  · intro readLink idParam i l hp hr
    simp only [getLinkById, hp, hr]
    rfl

/-- Witness for C3 at one concrete link set and one concrete store. -/
theorem C3_canonical_link_rendering_witness :
    splitChar '\n' (exportToLN [⟨1, 100, 200⟩, ⟨2, 300, 400⟩]) =
      [js "(1: 100 200)", js "(2: 300 400)", []] ∧
    (getLinkById (fun i => if i = 7 then .ok (some ⟨7, 5, 6⟩) else .ok none) (js "7")).2 =
      js "(7: 5 6)" ++ js "\n" := by
  constructor
  · have h := (C3_canonical_link_rendering.1 [⟨1, 100, 200⟩, ⟨2, 300, 400⟩] (by decide)).1
    rw [h]
    decide
  · have h := C3_canonical_link_rendering.2.2
      (fun i => if i = 7 then .ok (some ⟨7, 5, 6⟩) else .ok none) (js "7") 7 ⟨7, 5, 6⟩
      (by decide) rfl
    rw [h]
    decide

/-- Arrays are truthy in JavaScript. -/
theorem jsTruthy_of_isArray (v : JsVal) (h : jsIsArray v = true) : jsTruthy v = true := by
  cases v <;> simp [jsIsArray] at h <;> rfl

/-- C5: the create endpoint's handler rejects with 400 and the invalid
argument body, without delegating to the facade, exactly when the
substitution is missing, not an array, or shorter than two elements;
otherwise it delegates creation with that substitution. -/
theorem C5_create_substitution_validation :
    ∀ body : JsVal,
      (ilinksCreateAction body =
          .reject 400 (errBody (js "substitution must be array [source, target]")) ↔
        subBad body = true) ∧
      (subBad body = false →
        ilinksCreateAction body = .create (jsGet body (js "substitution"))) := by
  intro body
  unfold ilinksCreateAction subBad
  cases hA : jsIsArray (jsGet body (js "substitution")) with
  | false =>
    simp [hA]
  | true =>
    simp only [hA, jsTruthy_of_isArray _ hA]
    by_cases hl : jsArrLen (jsGet body (js "substitution")) < 2
    · simp [hl]
    · simp [hl]

/-- Witness for C5: a two-element substitution is delegated, a short one
is rejected. -/
theorem C5_create_substitution_validation_witness :
    ilinksCreateAction
        (.objCons (js "substitution") (.arrCons (.num (some 1)) (.arrCons (.num (some 2)) .arrNil)) .objNil) =
      .create (.arrCons (.num (some 1)) (.arrCons (.num (some 2)) .arrNil)) ∧
    ilinksCreateAction (.objCons (js "substitution") (.arrCons (.num (some 1)) .arrNil) .objNil) =
      .reject 400 (errBody (js "substitution must be array [source, target]")) := by
  constructor
  · have h := (C5_create_substitution_validation
      (.objCons (js "substitution") (.arrCons (.num (some 1)) (.arrCons (.num (some 2)) .arrNil)) .objNil)).2
    rw [h (by decide)]
    decide
  · exact (C5_create_substitution_validation
      (.objCons (js "substitution") (.arrCons (.num (some 1)) .arrNil) .objNil)).1.mpr (by decide)

/-- C6: the read-one-link handler maps outcomes to statuses as the
specification's kind-to-status table requires: a NaN id is 400, a
missing link is 404, a store error naming the missing backing process is
503, and any other store error is 500. -/
theorem C6_status_mapping :
    ∀ (readLink : Int → StoreResult (Option Link)) (idParam : JStr),
      (jsParseInt idParam = none →
        getLinkById readLink idParam = (400, errBody (js "invalid link id"))) ∧
      (∀ i, jsParseInt idParam = some i →
        (readLink i = .ok none →
          getLinkById readLink idParam = (404, errBody (js "link not found"))) ∧
        (∀ l, readLink i = .ok (some l) →
          getLinkById readLink idParam = (200, formatLinksAsLN [l] ++ js "\n")) ∧
        (∀ m, readLink i = .err m →
          getLinkById readLink idParam =
            if includesStr (js "clink command not found") m then
              (503, errBody (js "link-cli (clink) not installed"))
            else (500, errBody m))) := by
  intro readLink idParam
  constructor
  · intro hp
    unfold getLinkById
    rw [hp]
  · intro i hp
    refine ⟨?_, ?_, ?_⟩
    · intro hr
      simp only [getLinkById, hp, hr]
    · intro l hr
      simp only [getLinkById, hp, hr]
    · intro m hr
      simp only [getLinkById, hp, hr]
      unfold catchBlock clinkMissing
      by_cases hm : includesStr (js "clink command not found") m = true
      · rw [if_pos hm]
      · rw [if_neg hm]

/-- Witness for C6 at a concrete store with one link, exercising the 400,
404, 200, 503 and 500 outcomes. -/
theorem C6_status_mapping_witness :
    getLinkById (fun _ => .ok none) (js "abc") = (400, errBody (js "invalid link id")) ∧
    getLinkById (fun _ => .ok none) (js "9") = (404, errBody (js "link not found")) ∧
    getLinkById (fun _ => .ok (some ⟨9, 1, 2⟩)) (js "9") = (200, formatLinksAsLN [⟨9, 1, 2⟩] ++ js "\n") ∧
    getLinkById (fun _ => .err (js "spawn: clink command not found")) (js "9") =
      (503, errBody (js "link-cli (clink) not installed")) ∧
    getLinkById (fun _ => .err (js "disk failure")) (js "9") = (500, errBody (js "disk failure")) := by
  refine ⟨?_, ?_, ?_, ?_, ?_⟩
  · exact (C6_status_mapping (fun _ => .ok none) (js "abc")).1 (by decide)
  · exact ((C6_status_mapping (fun _ => .ok none) (js "9")).2 9 (by decide)).1 rfl
  · exact (((C6_status_mapping (fun _ => .ok (some ⟨9, 1, 2⟩)) (js "9")).2 9 (by decide)).2.1) ⟨9, 1, 2⟩ rfl
  · have h := (((C6_status_mapping (fun _ => .err (js "spawn: clink command not found")) (js "9")).2
      9 (by decide)).2.2) (js "spawn: clink command not found") rfl
    rw [h]
    decide
  · have h := (((C6_status_mapping (fun _ => .err (js "disk failure")) (js "9")).2
      9 (by decide)).2.2) (js "disk failure") rfl
    rw [h]
    decide

/-! ### Number printing casts -/

theorem ratToChars_natCast (n : Nat) : ratToChars ((n : ℚ)) = natToChars n := by
  unfold ratToChars
  rw [Rat.num_natCast, Rat.den_natCast]
  rw [if_neg (by exact not_lt.2 (Int.natCast_nonneg n))]
  simp [Int.natAbs_ofNat, Nat.div_one, Nat.mod_one]

theorem ratToChars_intCast (i : Int) : ratToChars ((i : ℚ)) = intToChars i := by
  unfold ratToChars intToChars
  rw [Rat.num_intCast, Rat.den_intCast]
  by_cases hi : i < 0
  · rw [if_pos hi, if_pos hi]
    simp [Nat.div_one, Nat.mod_one]
  · rw [if_neg hi, if_neg hi]
    simp [Nat.div_one, Nat.mod_one]

/-- C7: a successful count responds with exactly the count line for the
number the facade returned; a successful deletion acknowledges with the
fixed ok body on the delete route and with the returned id on the
restriction-driven delete route. -/
theorem C7_count_and_delete_bodies :
    (∀ (body : JsVal) (cf : JsVal → StoreResult Nat) (n : Nat),
      cf (if jsTruthy (jsGet body (js "restriction")) then jsGet body (js "restriction")
          else .jsnull) = .ok n →
      ilinksCount body cf = (200, js "(count: " ++ natToChars n ++ js ")" ++ js "\n")) ∧
    (∀ (dl : Int → StoreResult Unit) (idParam : JStr) (i : Int),
      jsParseInt idParam = some i → dl i = .ok () →
      deleteLinkById dl idParam = (200, js "(deleted: ok)" ++ js "\n")) ∧
    (∀ (body : JsVal) (df : JsVal → StoreResult Int) (i : Int),
      jsTruthy (jsGet body (js "restriction")) = true →
      jsIsArray (jsGet body (js "restriction")) = true →
      df (jsGet body (js "restriction")) = .ok i →
      ilinksDelete body df = (200, js "(deleted: " ++ intToChars i ++ js ")" ++ js "\n")) := by
  refine ⟨?_, ?_, ?_⟩
  · intro body cf n hc
    simp only [ilinksCount, hc]
    rw [show jsToString (.num (some ((n : Nat) : ℚ))) = ratToChars ((n : Nat) : ℚ) from rfl]
    rw [ratToChars_natCast]
  · intro dl idParam i hp hd
    simp only [deleteLinkById, hp, hd]
  · intro body df i h1 h2 hd
    simp only [ilinksDelete, h1, h2, hd]
    simp only [Bool.not_true, Bool.false_or, Bool.or_self, Bool.false_and]
    rw [show jsToString (.num (some ((i : Int) : ℚ))) = ratToChars ((i : Int) : ℚ) from rfl]
    rw [ratToChars_intCast]
    simp

/-- Witness for C7 at concrete facade outcomes. -/
theorem C7_count_and_delete_bodies_witness :
    ilinksCount .objNil (fun _ => .ok 3) = (200, js "(count: " ++ natToChars 3 ++ js ")" ++ js "\n") ∧
    deleteLinkById (fun _ => .ok ()) (js "4") = (200, js "(deleted: ok)" ++ js "\n") ∧
    ilinksDelete (.objCons (js "restriction") (.arrCons (.num (some 9)) .arrNil) .objNil)
        (fun _ => .ok 9) =
      (200, js "(deleted: " ++ intToChars 9 ++ js ")" ++ js "\n") := by
  refine ⟨?_, ?_, ?_⟩
  · exact C7_count_and_delete_bodies.1 .objNil (fun _ => .ok 3) 3 rfl
  · exact C7_count_and_delete_bodies.2.1 (fun _ => .ok ()) (js "4") 4 (by decide) rfl
  · exact C7_count_and_delete_bodies.2.2
      (.objCons (js "restriction") (.arrCons (.num (some 9)) .arrNil) .objNil)
      (fun _ => .ok 9) 9 (by decide) (by decide) rfl

/-- C9: filtering returns a subsequence of the input, so every returned
element is an input element, nothing is added or duplicated, and relative
order is preserved; null, absent or empty filters return the input
unchanged. -/
theorem C9_filters_sublist :
    ∀ (links : List JsVal) (filters : Option (List (JStr × JsVal))),
      (filterLinks links filters).Sublist links ∧
      ((filters = none ∨ filters = some []) → filterLinks links filters = links) := by
  intro links filters
  unfold filterLinks applyFilters
  cases filters with
  | none => exact ⟨List.Sublist.refl links, fun _ => rfl⟩
  | some fs =>
    dsimp only
    by_cases he : fs.isEmpty
    · constructor
      · rw [if_pos he]
      · intro _
        rw [if_pos he]
    · constructor
      · rw [if_neg he]
        exact List.filter_sublist links
      · intro h
        rcases h with h | h
        · exact absurd h (by simp)
        · have hfs : fs = [] := by injection h
          subst hfs
          exact absurd rfl he

/-- Witness for C9: absent filters return the list unchanged, and a
nonempty filter set yields a subsequence. -/
theorem C9_filters_sublist_witness :
    filterLinks [jsObj [(js "id", .num (some 1))]] none = [jsObj [(js "id", .num (some 1))]] ∧
    (filterLinks [jsObj [(js "id", .num (some 1))]]
        (some [(js "source", .str (js "1"))])).Sublist [jsObj [(js "id", .num (some 1))]] := by
  constructor
  · exact (C9_filters_sublist [jsObj [(js "id", .num (some 1))]] none).2 (Or.inl rfl)
  · exact (C9_filters_sublist [jsObj [(js "id", .num (some 1))]]
      (some [(js "source", .str (js "1"))])).1

/-! ### Format sniffing -/

theorem jsStartsWith_single (c : Char) (s : JStr) :
    jsStartsWith [c] s = true ↔ s.head? = some c := by
  cases s with
  | nil => simp [jsStartsWith, List.isPrefixOf]
  | cons d t =>
    simp [jsStartsWith, List.isPrefixOf]
    constructor
    · intro h; rw [h]
    · intro h; exact h.symm

theorem splitChar_ne_nil (sep : Char) (s : JStr) : splitChar sep s ≠ [] := by
  match s with
  | [] => simp [splitChar]
  | c :: cs =>
    rw [splitChar]
    by_cases h : c = sep
    · simp [h]
    · rw [if_neg h]
      cases hm : splitChar sep cs <;> simp

/-- C4 counterexample: content that starts with a brace but is not valid
JSON is detected as tabular, not as JSON as the claim's sniffing rule
requires. -/
theorem C4_sniffing_counterexample :
    (jsTrim (js "\x7ba,b")).head? = some '\x7b' ∧
    detectFormat (.str (js "\x7ba,b")) = js "csv" ∧
    js "csv" ≠ js "json" := by
  refine ⟨by decide, by decide, by decide⟩

/-- C4 amended: the sniffer detects JSON exactly when the trimmed content
starts with a bracket or brace and additionally parses as valid JSON;
otherwise (including that fallthrough) the first line containing a comma
and not starting with a parenthesis means tabular, and anything else,
empty and non-string input included, means the native notation. -/
theorem C4_sniffing_amended :
    (∀ v : JsVal, jsTruthy v = false ∨ jsIsString v = false → detectFormat v = js "ln") ∧
    (∀ s : JStr,
      detectFormat (.str s) =
        if ((jsTrim s).head? = some '[' ∨ (jsTrim s).head? = some '\x7b') ∧
            (jsonParse (jsTrim s)).isSome = true then js "json"
        else if includesStr (js ",") ((splitChar '\n' (jsTrim s)).headD []) = true ∧
            ¬ ((splitChar '\n' (jsTrim s)).headD []).head? = some '(' then js "csv"
        else js "ln") := by
  constructor
  · intro v h
    rcases h with h | h <;>
      (unfold detectFormat; rw [if_pos (by simp [h])])
  · intro s
    by_cases hs : s.isEmpty
    · have he : s = [] := by simpa [List.isEmpty_iff] using hs
      subst he
      decide
    · unfold detectFormat
      rw [if_neg (by simp [jsTruthy, jsIsString, hs])]
      dsimp only
      have hb1 : ((jsStartsWith (js "[") (jsTrim s) || jsStartsWith (js "\x7b") (jsTrim s)) &&
          (jsonParse (jsTrim s)).isSome) = true ↔
          (((jsTrim s).head? = some '[' ∨ (jsTrim s).head? = some '\x7b') ∧
            (jsonParse (jsTrim s)).isSome = true) := by
        rw [Bool.and_eq_true, Bool.or_eq_true]
        rw [show js "[" = ['['] from rfl, show js "\x7b" = ['\x7b'] from rfl]
        rw [jsStartsWith_single, jsStartsWith_single]
      have hb2 : (!(splitChar '\n' (jsTrim s)).isEmpty &&
            includesStr (js ",") ((splitChar '\n' (jsTrim s)).headD []) &&
            !jsStartsWith (js "(") ((splitChar '\n' (jsTrim s)).headD [])) = true ↔
          (includesStr (js ",") ((splitChar '\n' (jsTrim s)).headD []) = true ∧
            ¬ ((splitChar '\n' (jsTrim s)).headD []).head? = some '(') := by
        rw [Bool.and_eq_true, Bool.and_eq_true]
        rw [show js "(" = ['('] from rfl]
        constructor
        · intro h
          refine ⟨h.1.2, ?_⟩
          intro hh
          have := (jsStartsWith_single '(' _).2 hh
          rw [this] at h
          simpa using h.2
        · intro h
          refine ⟨⟨?_, h.1⟩, ?_⟩
          · simp [List.isEmpty_iff, splitChar_ne_nil]
          · cases hx : jsStartsWith ['('] ((splitChar '\n' (jsTrim s)).headD []) with
            | false => rfl
            | true => exact absurd ((jsStartsWith_single '(' _).1 hx) h.2
      by_cases h1 : ((jsTrim s).head? = some '[' ∨ (jsTrim s).head? = some '\x7b') ∧
          (jsonParse (jsTrim s)).isSome = true
      · rw [if_pos (hb1.2 h1), if_pos h1]
      · rw [if_neg (fun hx => h1 (hb1.1 hx)), if_neg h1]
        by_cases h2 : includesStr (js ",") ((splitChar '\n' (jsTrim s)).headD []) = true ∧
            ¬ ((splitChar '\n' (jsTrim s)).headD []).head? = some '('
        · rw [if_pos (hb2.2 h2), if_pos h2]
        · rw [if_neg (fun hx => h2 (hb2.1 hx)), if_neg h2]

/-- Witness for C4's amended theorem at a concrete non-string input and a
concrete tabular input. -/
theorem C4_sniffing_amended_witness :
    detectFormat .jsnull = js "ln" ∧
    detectFormat (.str (js "id,source,target")) =
      (if (((jsTrim (js "id,source,target")).head? = some '[' ∨
            (jsTrim (js "id,source,target")).head? = some '\x7b') ∧
          (jsonParse (jsTrim (js "id,source,target"))).isSome = true) then js "json"
       else if includesStr (js ",") ((splitChar '\n' (jsTrim (js "id,source,target"))).headD []) = true ∧
          ¬ ((splitChar '\n' (jsTrim (js "id,source,target"))).headD []).head? = some '(' then js "csv"
       else js "ln") := by
  constructor
  · exact C4_sniffing_amended.1 .jsnull (Or.inl rfl)
  · exact C4_sniffing_amended.2 (js "id,source,target")

/-! ### Filter negation -/

theorem dropWhile_length_le (p : Char → Bool) (l : List Char) :
    (l.dropWhile p).length ≤ l.length := by
  induction l with
  | nil => simp
  | cons c cs ih =>
    simp only [List.dropWhile]
    cases hp : p c with
    | true => simpa using Nat.le_succ_of_le ih
    | false => simp

theorem rtrimStr_length_le (s : JStr) : (rtrimStr s).length ≤ s.length := by
  unfold rtrimStr
  rw [List.length_reverse]
  calc (s.reverse.dropWhile isWsChar).length ≤ s.reverse.length :=
        dropWhile_length_le _ _
    _ = s.length := List.length_reverse s

theorem jsTrim_length_le (s : JStr) : (jsTrim s).length ≤ s.length := by
  unfold jsTrim
  calc (rtrimStr (ltrimStr s)).length ≤ (ltrimStr s).length := rtrimStr_length_le _
    _ ≤ s.length := dropWhile_length_le _ _

theorem rtrimStr_cons_nonws (c : Char) (s : JStr) (hw : isWsChar c = false) :
    rtrimStr (c :: s) = c :: rtrimStr s := by
  by_cases h : rtrimStr s = []
  · rw [rtrimStr_cons_of_nil c s h, hw, h]
    simp
  · exact rtrimStr_cons_of_ne c s h

/-- The string parser of the filters module is insensitive to its fuel
and to trailing trim, as its first act is to trim: two calls with the
same trimmed input and adequate fuel agree. -/
theorem pfs_eq_of_trim_eq (n : Nat) :
    ∀ (x y : JStr) (fx fy : Nat), x.length ≤ n → jsTrim x = jsTrim y →
      x.length < fx → y.length < fy →
      parseFilterStrFuel fx x = parseFilterStrFuel fy y := by
  induction n with
  | zero =>
    intro x y fx fy hn ht hx hy
    match fx, fy with
    | fx + 1, fy + 1 =>
      rw [parseFilterStrFuel, parseFilterStrFuel, ht]
      by_cases hneg : jsStartsWith (js "!") (jsTrim y) = true
      · rw [if_pos hneg, if_pos hneg]
        have h0 : x = [] := by
          cases x with
          | nil => rfl
          | cons a b => simp at hn
        have : jsTrim y = [] := by rw [← ht, h0]; rfl
        rw [this] at hneg
        exact absurd hneg (by decide)
      · rw [if_neg hneg, if_neg hneg]
  | succ n ih =>
    intro x y fx fy hn ht hx hy
    match fx, fy with
    | fx + 1, fy + 1 =>
      rw [parseFilterStrFuel, parseFilterStrFuel, ht]
      by_cases hneg : jsStartsWith (js "!") (jsTrim y) = true
      · rw [if_pos hneg, if_pos hneg]
        have htnode : (jsTrim y).length ≥ 1 := by
          cases hc : jsTrim y with
          | nil => rw [hc] at hneg; exact absurd hneg (by decide)
          | cons a b => simp
        have hty : (jsTrim y).length ≤ y.length := jsTrim_length_le y
        have htx : (jsTrim y).length ≤ x.length := by rw [← ht]; exact jsTrim_length_le x
        have hrec := ih ((jsTrim y).drop 1) ((jsTrim y).drop 1) fx fy
          (by simp [List.length_drop]; omega) rfl
          (by simp [List.length_drop]; omega) (by simp [List.length_drop]; omega)
        rw [hrec]
      · rw [if_neg hneg, if_neg hneg]

/-- Any branch of the filter string parser other than negation yields an
unnegated filter. -/
theorem pfs_not_negated (s : JStr) (f : Nat)
    (h : ¬ (jsTrim s).head? = some '!') :
    (parseFilterStrFuel (f + 1) s).negated = false := by
  rw [parseFilterStrFuel]
  rw [if_neg (by
    intro hx
    exact h ((jsStartsWith_single '!' (jsTrim s)).1 hx))]
  dsimp only
  split
  · rfl
  · split
    · rfl
    · split
      · rfl
      · split
        · rfl
        · split
          · rfl
          · split
            · rfl
            · split
              · rfl
              · split
                · rfl
                · split
                  · rfl
                  · split
                    · rfl
                    · rfl

/-- Flipping only the negation flag complements the filter's outcome. -/
theorem applyFilter_negate (v : JsVal) (fl : JsFilter) (h : fl.negated = false) :
    applyFilter v { fl with negated := true } = !applyFilter v fl := by
  unfold applyFilter
  dsimp only
  rw [h]
  simp

/-- C8 counterexample: for the filter string whose trimmed form begins
with an exclamation mark even though the string itself does not,
prefixing another exclamation mark collapses by double negation instead
of complementing the outcome. -/
theorem C8_negation_counterexample :
    (js " !1").head? = some ' ' ∧
    applyFilter (.str (js "1")) (parseFilterValue (.str ('!' :: js " !1"))) =
      applyFilter (.str (js "1")) (parseFilterValue (.str (js " !1"))) ∧
    ¬ (applyFilter (.str (js "1")) (parseFilterValue (.str ('!' :: js " !1"))) =
       !applyFilter (.str (js "1")) (parseFilterValue (.str (js " !1")))) := by
  refine ⟨by decide, by decide, by decide⟩

/-- C8 amended: for every value and every filter string whose trimmed
form does not begin with an exclamation mark, prefixing one complements
the filter's outcome. -/
theorem C8_negation_amended :
    ∀ (v : JsVal) (s : JStr), ¬ (jsTrim s).head? = some '!' →
      applyFilter v (parseFilterValue (.str ('!' :: s))) =
        !applyFilter v (parseFilterValue (.str s)) := by
  intro v s h
  have e1 : parseFilterValue (.str ('!' :: s)) =
      parseFilterStrFuel (('!' :: s).length + 1) ('!' :: s) := rfl
  have e2 : parseFilterValue (.str s) = parseFilterStrFuel (s.length + 1) s := rfl
  rw [e1, e2]
  have htr : jsTrim ('!' :: s) = '!' :: rtrimStr s := by
    rw [jsTrim_cons_nonws '!' s (by decide)]
    exact rtrimStr_cons_nonws '!' s (by decide)
  rw [show ('!' :: s).length + 1 = s.length + 2 from by simp]
  rw [parseFilterStrFuel, htr]
  rw [if_pos (by simp [jsStartsWith, List.isPrefixOf])]
  have hdrop : ('!' :: rtrimStr s).drop 1 = rtrimStr s := rfl
  rw [hdrop]
  have hre : parseFilterStrFuel (s.length + 1) (rtrimStr s) =
      parseFilterStrFuel (s.length + 1) s := by
    apply pfs_eq_of_trim_eq s.length (rtrimStr s) s (s.length + 1) (s.length + 1)
      (rtrimStr_length_le s) (jsTrim_rtrimStr s)
      (by have := rtrimStr_length_le s; omega) (by omega)
  rw [hre]
  exact applyFilter_negate v _ (pfs_not_negated s s.length h)

/-- Witness for C8's amended theorem at a concrete value and filter
string. -/
theorem C8_negation_amended_witness :
    ¬ (jsTrim (js "100")).head? = some '!' ∧
    applyFilter (.str (js "100")) (parseFilterValue (.str ('!' :: js "100"))) =
      !applyFilter (.str (js "100")) (parseFilterValue (.str (js "100"))) :=
  ⟨by decide, C8_negation_amended (.str (js "100")) (js "100") (by decide)⟩

/-! ### JSON import -/

theorem jsonImportItemEx_not_null (item : JsVal) (h1 : item ≠ .jsnull) (h2 : item ≠ .undef) :
    jsonImportItemEx item = some (jsonImportItem item) := by
  cases item with
  | undef => exact absurd rfl h2
  | jsnull => exact absurd rfl h1
  | bool b => rfl
  | num q => rfl
  | str s => rfl
  | arrNil => rfl
  | arrCons h t => rfl
  | objNil => rfl
  | objCons k v r => rfl

theorem jsonImportItems_map (xs : List JsVal)
    (h : ∀ v ∈ xs, v ≠ .jsnull ∧ v ≠ .undef) :
    jsonImportItems xs = some (xs.map jsonImportItem) := by
  induction xs with
  | nil => rfl
  | cons a b ih =>
    rw [jsonImportItems,
      jsonImportItemEx_not_null a (h a (List.mem_cons_self a b)).1 (h a (List.mem_cons_self a b)).2,
      ih (fun v hv => h v (List.mem_cons_of_mem a hv))]
    rfl

theorem jsonImportItems_null (xs : List JsVal) (h : JsVal.jsnull ∈ xs) :
    jsonImportItems xs = none := by
  induction xs with
  | nil => simp at h
  | cons a b ih =>
    rw [jsonImportItems]
    rcases List.mem_cons.1 h with h1 | h1
    · rw [← h1]
      rfl
    · rw [ih h1]
      cases hx : jsonImportItemEx a with
      | none => rfl
      | some w => rfl

/-- C10 counterexample: the document [null] parses to a one-element
array, so the claimed elementwise mapping would produce the all-default
link object; but the element mapping's property access throws on the
null element inside the try block, and importFromJSON rethrows the
invalid-JSON error instead. -/
theorem C10_json_import_counterexample :
    jsonParse (js "[null]") = some (jsArr [JsVal.jsnull]) ∧
    importFromJSON (js "[null]") = .error (js "Invalid JSON") ∧
    importFromJSON (js "[null]") ≠
      .ok [jsObj [(js "source", JsVal.num (some 0)), (js "target", JsVal.num (some 0)),
        (js "originalId", JsVal.undef)]] := by
  refine ⟨by decide, rfl, ?_⟩
  rw [show importFromJSON (js "[null]") = .error (js "Invalid JSON") from rfl]
  intro h
  exact Except.noConfusion h

/-- C10 amended: importFromJSON returns a parsed non-array value
unchanged as the single element with no coercion; it maps a parsed JSON
array elementwise — source and target integer-coerced with zero for
missing or unparsable fields, originalId present exactly when the
element has an id field — provided no element is null or undefined,
while an array containing a null element makes the whole import fail
with the invalid-JSON error, since the element's property access throws
inside the try block. -/
theorem C10_json_import_amended :
    (∀ (s : JStr) (d : JsVal), jsonParse s = some d → jsIsArray d = false →
      importFromJSON s = .ok [d]) ∧
    (∀ (s : JStr) (d : JsVal), jsonParse s = some d → jsIsArray d = true →
      (∀ v ∈ jsArrToList d, v ≠ .jsnull ∧ v ≠ .undef) →
      importFromJSON s = .ok ((jsArrToList d).map jsonImportItem)) ∧
    (∀ (s : JStr) (d : JsVal), jsonParse s = some d → jsIsArray d = true →
      JsVal.jsnull ∈ jsArrToList d →
      importFromJSON s = .error (js "Invalid JSON")) ∧
    (∀ item : JsVal,
      jsGet (jsonImportItem item) (js "source") =
        .num (some ((orZero (jsParseIntVal (jsGet item (js "source")))) : ℚ)) ∧
      jsGet (jsonImportItem item) (js "target") =
        .num (some ((orZero (jsParseIntVal (jsGet item (js "target")))) : ℚ)) ∧
      ((jsGet (jsonImportItem item) (js "originalId") ≠ .undef) ↔
        jsGet item (js "id") ≠ .undef) ∧
      (jsGet item (js "source") = .undef →
        jsGet (jsonImportItem item) (js "source") = .num (some 0)) ∧
      (jsParseIntVal (jsGet item (js "source")) = none →
        jsGet (jsonImportItem item) (js "source") = .num (some 0))) := by
  have hnil : jsonParse ([] : JStr) = none := by decide
  refine ⟨?_, ?_, ?_, ?_⟩
  · intro s d hp ha
    have hs : ¬s.isEmpty = true := by
      intro hx
      rw [List.isEmpty_iff.1 hx] at hp
      rw [hnil] at hp
      exact Option.noConfusion hp
    unfold importFromJSON
    rw [if_neg hs, hp]
    dsimp only
    rw [ha]
    rfl
  · intro s d hp ha hnn
    have hs : ¬s.isEmpty = true := by
      intro hx
      rw [List.isEmpty_iff.1 hx] at hp
      rw [hnil] at hp
      exact Option.noConfusion hp
    unfold importFromJSON
    rw [if_neg hs, hp]
    dsimp only
    rw [ha]
    rw [if_pos rfl]
    rw [jsonImportItems_map (jsArrToList d) hnn]
  · intro s d hp ha hmem
    have hs : ¬s.isEmpty = true := by
      intro hx
      rw [List.isEmpty_iff.1 hx] at hp
      rw [hnil] at hp
      exact Option.noConfusion hp
    unfold importFromJSON
    rw [if_neg hs, hp]
    dsimp only
    rw [ha]
    rw [if_pos rfl]
    rw [jsonImportItems_null (jsArrToList d) hmem]
  · intro item
    refine ⟨rfl, rfl, ?_, ?_, ?_⟩
    · have h : jsGet (jsonImportItem item) (js "originalId") =
          (match jsGet item (js "id") with
           | .undef => .undef
           | v => numOfParse (jsParseIntVal v)) := rfl
      rw [h]
      cases hg : jsGet item (js "id") <;> simp [numOfParse]
    · intro h
      have h1 : jsGet (jsonImportItem item) (js "source") =
          .num (some ((orZero (jsParseIntVal (jsGet item (js "source")))) : ℚ)) := rfl
      rw [h1, h]
      rw [show jsParseIntVal JsVal.undef = none from by decide]
      rfl
    · intro h
      have h1 : jsGet (jsonImportItem item) (js "source") =
          .num (some ((orZero (jsParseIntVal (jsGet item (js "source")))) : ℚ)) := rfl
      rw [h1, h]
      rfl

/-- Witness for C10's amended theorem at a concrete non-array document,
a concrete array document, the null-element document, and a concrete
element. -/
theorem C10_json_import_amended_witness :
    importFromJSON (js "\x7b\"source\": 5\x7d") = .ok [jsObj [(js "source", .num (some 5))]] ∧
    importFromJSON (js "[\x7b\"id\": 1, \"source\": 2, \"target\": 3\x7d]") =
      .ok ((jsArrToList (jsArr [jsObj [(js "id", .num (some 1)), (js "source", .num (some 2)),
        (js "target", .num (some 3))]])).map jsonImportItem) ∧
    importFromJSON (js "[null]") = .error (js "Invalid JSON") ∧
    jsGet (jsonImportItem (jsObj [(js "source", .str (js "abc"))])) (js "source") =
      .num (some 0) := by
  refine ⟨?_, ?_, ?_, ?_⟩
  · exact C10_json_import_amended.1 (js "\x7b\"source\": 5\x7d")
      (jsObj [(js "source", .num (some 5))]) (by decide) rfl
  · exact C10_json_import_amended.2.1 (js "[\x7b\"id\": 1, \"source\": 2, \"target\": 3\x7d]")
      (jsArr [jsObj [(js "id", .num (some 1)), (js "source", .num (some 2)),
        (js "target", .num (some 3))]]) (by decide) rfl (by decide)
  · exact C10_json_import_amended.2.2.1 (js "[null]") (jsArr [JsVal.jsnull])
      (by decide) rfl (by decide)
  · have h := (C10_json_import_amended.2.2.2 (jsObj [(js "source", .str (js "abc"))])).2.2.2.2
      (by decide)
    rw [h]

/-! ### Links-notation round trip -/

theorem dropWhile_eq_self_of_none {p : Char → Bool} (s : List Char)
    (h : ∀ c ∈ s, p c = false) : s.dropWhile p = s := by
  cases s with
  | nil => rfl
  | cons c cs =>
    simp [List.dropWhile, h c (List.mem_cons_self c cs)]

theorem jsTrim_all_nonws (s : JStr) (h : ∀ c ∈ s, isWsChar c = false) :
    jsTrim s = s := by
  unfold jsTrim ltrimStr rtrimStr
  rw [dropWhile_eq_self_of_none s h]
  rw [dropWhile_eq_self_of_none s.reverse (fun c hc => h c (List.mem_reverse.1 hc))]
  exact List.reverse_reverse s

theorem jsTrim_append_ends (a : JStr) (c0 c1 : Char) (h0 : isWsChar c0 = false)
    (h1 : isWsChar c1 = false) : jsTrim (c0 :: (a ++ [c1])) = c0 :: (a ++ [c1]) := by
  unfold jsTrim
  rw [ltrimStr_cons_nonws _ _ h0]
  unfold rtrimStr
  rw [show (c0 :: (a ++ [c1])).reverse = c1 :: (a.reverse ++ [c0]) from by simp]
  rw [List.dropWhile_cons, h1]
  simp

theorem natToChars_nonws (n : Nat) : ∀ c ∈ natToChars n, isWsChar c = false :=
  fun c hc => isDigitChar_not_ws c (natToChars_digits n c hc)

theorem jsTrim_renderLinkLN (l : Link) : jsTrim (renderLinkLN l) = renderLinkLN l := by
  have hA : renderLinkLN l =
      '(' :: ((natToChars l.id ++ [':', ' '] ++ natToChars l.source ++ [' '] ++
        natToChars l.target) ++ [')']) := rfl
  rw [hA]
  exact jsTrim_append_ends _ '(' ')' (by decide) (by decide)

theorem renderLinkLN_ne_nil (l : Link) : renderLinkLN l ≠ [] := by
  unfold renderLinkLN
  simp

theorem exportToLN_eq (L : List Link) (hL : L ≠ []) :
    exportToLN L = formatLinksAsLN L ++ js "\n" := by
  unfold exportToLN formatLinksAsLN
  rw [if_neg (by simp [List.isEmpty_iff, hL])]

theorem tokensOf_two (a b : JStr) (ha : ∀ c ∈ a, c ≠ ' ') (hb : ∀ c ∈ b, c ≠ ' ')
    (hna : a ≠ []) (hnb : b ≠ []) :
    tokensOf ([' '] ++ a ++ [' '] ++ b) = [a, b] := by
  unfold tokensOf
  have h1 : [' '] ++ a ++ [' '] ++ b = ' ' :: (a ++ ' ' :: b) := by simp
  rw [h1]
  rw [show splitChar ' ' (' ' :: (a ++ ' ' :: b)) = [] :: splitChar ' ' (a ++ ' ' :: b) from by
    rw [splitChar]; simp]
  rw [splitChar_append_sep ' ' a b ha]
  rw [splitChar_no_sep ' ' b hb]
  have ea : a.isEmpty = false := by simp [List.isEmpty_iff, hna]
  have eb : b.isEmpty = false := by simp [List.isEmpty_iff, hnb]
  simp [List.filter, ea, eb]

theorem parseLNLine_render (l : Link) :
    parseLNLine (renderLinkLN l) =
      some ⟨some (natToChars l.id), [natToChars l.source, natToChars l.target]⟩ := by
  have hA : renderLinkLN l =
      '(' :: ((natToChars l.id ++ [':', ' '] ++ natToChars l.source ++ [' '] ++
        natToChars l.target) ++ [')']) := rfl
  have h1 : jsTrim (renderLinkLN l) =
      '(' :: ((natToChars l.id ++ [':', ' '] ++ natToChars l.source ++ [' '] ++
        natToChars l.target) ++ [')']) := by
    rw [jsTrim_renderLinkLN]
    exact hA
  simp only [parseLNLine, h1]
  rw [if_pos trivial]
  rw [show ((natToChars l.id ++ [':', ' '] ++ natToChars l.source ++ [' '] ++
      natToChars l.target) ++ [')']).reverse =
      ')' :: (natToChars l.id ++ [':', ' '] ++ natToChars l.source ++ [' '] ++
        natToChars l.target).reverse from by simp]
  dsimp only
  rw [if_pos rfl]
  rw [List.reverse_reverse]
  have hmem : (':' : Char) ∈ natToChars l.id ++ [':', ' '] ++ natToChars l.source ++ [' '] ++
      natToChars l.target := by simp
  rw [if_pos (List.any_eq_true.2 ⟨':', hmem, by simp⟩)]
  have hassoc : natToChars l.id ++ [':', ' '] ++ natToChars l.source ++ [' '] ++
      natToChars l.target =
      natToChars l.id ++ (':' :: ([' '] ++ natToChars l.source ++ [' '] ++
        natToChars l.target)) := by simp
  rw [hassoc]
  rw [takeWhile_append_all _ _ (fun c hc =>
    by simpa using digit_ne c ':' (natToChars_digits l.id c hc) (by decide))]
  rw [dropWhile_append_all _ _ (fun c hc =>
    by simpa using digit_ne c ':' (natToChars_digits l.id c hc) (by decide))]
  rw [show List.takeWhile (fun c => !(c == ':'))
      (':' :: ([' '] ++ natToChars l.source ++ [' '] ++ natToChars l.target)) = [] from by
    simp [List.takeWhile]]
  rw [show List.dropWhile (fun c => !(c == ':'))
      (':' :: ([' '] ++ natToChars l.source ++ [' '] ++ natToChars l.target)) =
      ':' :: ([' '] ++ natToChars l.source ++ [' '] ++ natToChars l.target) from by
    simp [List.dropWhile]]
  simp only [List.append_nil, List.drop_one, List.tail_cons]
  rw [jsTrim_all_nonws _ (natToChars_nonws l.id)]
  rw [show [' '] ++ natToChars l.source ++ [' '] ++ natToChars l.target =
      [' '] ++ natToChars l.source ++ [' '] ++ natToChars l.target from rfl]
  rw [tokensOf_two (natToChars l.source) (natToChars l.target)
    (fun c hc => digit_ne c ' ' (natToChars_digits l.source c hc) (by decide))
    (fun c hc => digit_ne c ' ' (natToChars_digits l.target c hc) (by decide))
    (natToChars_ne_nil l.source) (natToChars_ne_nil l.target)]

theorem filterMap_parseLNLine (L : List Link) :
    List.filterMap (fun l => parseLNLine (renderLinkLN l)) L =
      L.map (fun l =>
        (⟨some (natToChars l.id), [natToChars l.source, natToChars l.target]⟩ : LNItem)) := by
  induction L with
  | nil => rfl
  | cons a as ih =>
    rw [List.map_cons, List.filterMap_cons, parseLNLine_render a, ih]

theorem lnParse_export (L : List Link) (hL : L ≠ []) :
    lnParse (exportToLN L) =
      L.map (fun l =>
        (⟨some (natToChars l.id), [natToChars l.source, natToChars l.target]⟩ : LNItem)) := by
  unfold lnParse
  rw [exportToLN_eq L hL, splitChar_formatLinks L hL]
  have hfil : ((L.map renderLinkLN) ++ [[]]).filter (fun r => !(jsTrim r).isEmpty) =
      L.map renderLinkLN := by
    rw [List.filter_append]
    have h1 : (L.map renderLinkLN).filter (fun r => !(jsTrim r).isEmpty) =
        L.map renderLinkLN := by
      apply List.filter_eq_self.2
      intro r hr
      rcases List.mem_map.1 hr with ⟨l, _, rfl⟩
      rw [jsTrim_renderLinkLN]
      simp [List.isEmpty_iff, renderLinkLN_ne_nil l]
    rw [h1]
    simp only [List.filter_cons, List.filter_nil]
    rw [show jsTrim ([] : JStr) = [] from rfl]
    simp
  rw [hfil, List.filterMap_map]
  exact filterMap_parseLNLine L

theorem exportToLN_ne_nil (L : List Link) : ¬(exportToLN L).isEmpty = true := by
  unfold exportToLN
  by_cases h : L.isEmpty
  · rw [if_pos h]
    decide
  · rw [if_neg h]
    simp only [List.isEmpty_iff]
    intro hx
    exact absurd (List.append_eq_nil.1 hx).2 (by decide)

theorem importFromLN_export (L : List Link) (hL : L ≠ []) :
    importFromLN (exportToLN L) = L.map importedLinkObj := by
  unfold importFromLN
  rw [if_neg (exportToLN_ne_nil L)]
  rw [lnParse_export L hL, List.map_map]
  apply List.map_congr_left
  intro l _
  show (let src : Int :=
      match [natToChars l.source, natToChars l.target] with
      | v0 :: _ => orZero (jsParseInt v0)
      | [] => 0
    let tgt : Int :=
      match [natToChars l.source, natToChars l.target] with
      | _ :: v1 :: _ => orZero (jsParseInt v1)
      | _ => 0
    let base := [(js "source", JsVal.num (some (src : ℚ))),
                 (js "target", JsVal.num (some (tgt : ℚ)))]
    jsObj (base ++ [(js "originalId", numOfParse (jsParseInt (natToChars l.id)))])) =
    importedLinkObj l
  dsimp only
  rw [jsParseInt_natToChars_nil l.source, jsParseInt_natToChars_nil l.target,
    jsParseInt_natToChars_nil l.id]
  unfold importedLinkObj numOfParse orZero
  simp [jsObj, Int.cast_natCast]

/-! ### Tabular round trip -/

theorem splitSubFuel_single (c : Char) :
    ∀ (f : Nat) (s : JStr), s.length < f → splitSubFuel [c] f s = splitChar c s := by
  intro f
  induction f with
  | zero => intro s hs; omega
  | succ f ih =>
    intro s hs
    match s with
    | [] => rfl
    | d :: ds =>
      rw [splitSubFuel, splitChar]
      by_cases hd : d = c
      · subst hd
        rw [if_pos ⟨by simp [List.isPrefixOf], by simp⟩, if_pos rfl]
        rw [show ([d] : JStr).length - 1 = 0 from rfl, List.drop_zero]
        rw [ih ds (by simpa using hs)]
      · rw [if_neg (by
          intro hx
          rcases hx with ⟨h1, _⟩
          simp [List.isPrefixOf] at h1
          exact hd h1.symm)]
        rw [if_neg (fun hx => hd hx)]
        rw [ih ds (by simpa using hs)]

theorem splitSub_single (c : Char) (s : JStr) : splitSub [c] s = splitChar c s :=
  splitSubFuel_single c (s.length + 1) s (by omega)

theorem splitChar_rowOf (l : Link) :
    splitChar ',' (rowOf l) =
      [natToChars l.id, natToChars l.source, natToChars l.target] := by
  unfold rowOf
  rw [show natToChars l.id ++ js "," ++ natToChars l.source ++ js "," ++ natToChars l.target =
    natToChars l.id ++ ',' :: (natToChars l.source ++ ',' :: natToChars l.target) from by
      rw [show js "," = [','] from rfl]
      simp]
  rw [splitChar_append_sep ',' _ _
    (fun x hx => digit_ne x ',' (natToChars_digits l.id x hx) (by decide))]
  rw [splitChar_append_sep ',' _ _
    (fun x hx => digit_ne x ',' (natToChars_digits l.source x hx) (by decide))]
  rw [splitChar_no_sep ','  _
    (fun x hx => digit_ne x ',' (natToChars_digits l.target x hx) (by decide))]

theorem rowOf_chars (l : Link) :
    ∀ c ∈ rowOf l, isDigitChar c = true ∨ c = ',' := by
  intro c hc
  unfold rowOf at hc
  rcases List.mem_append.1 hc with h | h
  · rcases List.mem_append.1 h with h | h
    · rcases List.mem_append.1 h with h | h
      · rcases List.mem_append.1 h with h | h
        · exact Or.inl (natToChars_digits _ _ h)
        · right
          rw [show js "," = [','] from rfl] at h
          simpa using h
      · exact Or.inl (natToChars_digits _ _ h)
    · right
      rw [show js "," = [','] from rfl] at h
      simpa using h
  · exact Or.inl (natToChars_digits _ _ h)

theorem rowOf_ne_nl (l : Link) : ∀ c ∈ rowOf l, c ≠ '\n' := by
  intro c hc he
  subst he
  rcases rowOf_chars l _ hc with h | h
  · exact absurd h (by decide)
  · exact absurd h (by decide)

theorem rowOf_nonws (l : Link) : ∀ c ∈ rowOf l, isWsChar c = false := by
  intro c hc
  rcases rowOf_chars l c hc with h | h
  · exact isDigitChar_not_ws c h
  · subst h; decide

theorem rowOf_ne_nil (l : Link) : rowOf l ≠ [] := by
  unfold rowOf
  simp [natToChars_ne_nil]

theorem exportToCSV_eq (L : List Link) (hL : L ≠ []) :
    exportToCSV L (js ",") true =
      joinSep (js "\n") (js "id,source,target" :: L.map rowOf) ++ js "\n" := by
  unfold exportToCSV
  rw [if_neg (by simp [List.isEmpty_iff, hL])]
  rfl

theorem splitChar_csv (L : List Link) (hL : L ≠ []) :
    splitChar '\n' (exportToCSV L (js ",") true) =
      (js "id,source,target" :: L.map rowOf) ++ [[]] := by
  rw [exportToCSV_eq L hL]
  have e : js "\n" = ['\n'] := rfl
  rw [e]
  have h1 : joinSep ['\n'] (js "id,source,target" :: L.map rowOf) ++ ['\n'] =
      joinSep ['\n'] ((js "id,source,target" :: L.map rowOf) ++ [[]]) := by
    rw [joinSep_append_single ['\n'] _ [] (by simp)]
    simp
  rw [h1, splitChar_joinSep]
  · intro r hr c hc
    rcases List.mem_append.1 hr with h | h
    · rcases List.mem_cons.1 h with h | h
      · subst h
        intro he
        subst he
        exact absurd hc (by decide)
      · rcases List.mem_map.1 h with ⟨l, _, rfl⟩
        exact rowOf_ne_nl l c hc
    · simp at h
      subst h
      simp at hc
  · simp

theorem jsTruthy_digits (n : Nat) : jsTruthy (.str (natToChars n)) = true := by
  unfold jsTruthy
  simp [List.isEmpty_iff, natToChars_ne_nil n]

theorem csvRow_rowOf (l : Link) :
    csvRow (js ",") 0 1 2 (rowOf l) = importedLinkObj l := by
  unfold csvRow
  rw [show js "," = [','] from rfl, splitSub_single ',' (rowOf l), splitChar_rowOf l]
  rw [show ([natToChars l.id, natToChars l.source, natToChars l.target]).map jsTrim =
      [natToChars l.id, natToChars l.source, natToChars l.target] from by
    simp [jsTrim_all_nonws _ (natToChars_nonws l.id),
      jsTrim_all_nonws _ (natToChars_nonws l.source),
      jsTrim_all_nonws _ (natToChars_nonws l.target)]]
  dsimp only
  rw [show fieldAt [natToChars l.id, natToChars l.source, natToChars l.target] 1 =
      .str (natToChars l.source) from rfl]
  rw [show fieldAt [natToChars l.id, natToChars l.source, natToChars l.target] 2 =
      .str (natToChars l.target) from rfl]
  rw [show fieldAt [natToChars l.id, natToChars l.source, natToChars l.target] 0 =
      .str (natToChars l.id) from rfl]
  rw [if_pos (by simp [jsTruthy_digits])]
  unfold importedLinkObj numOfParse orZero
  simp [jsObj, Int.cast_natCast, jsParseIntVal, jsToString, jsParseInt_natToChars_nil]

theorem csv_lines_filter (L : List Link) (hL : L ≠ []) :
    (splitChar '\n' (exportToCSV L (js ",") true)).filter (fun l => !(jsTrim l).isEmpty) =
      js "id,source,target" :: L.map rowOf := by
  rw [splitChar_csv L hL, List.filter_append, List.filter_cons]
  rw [show (!(jsTrim (js "id,source,target")).isEmpty) = true from by decide]
  rw [if_pos rfl]
  have h1 : (L.map rowOf).filter (fun r => !(jsTrim r).isEmpty) = L.map rowOf := by
    apply List.filter_eq_self.2
    intro r hr
    rcases List.mem_map.1 hr with ⟨l, _, rfl⟩
    rw [jsTrim_all_nonws _ (rowOf_nonws l)]
    simp [List.isEmpty_iff, rowOf_ne_nil l]
  rw [h1]
  simp only [List.filter_cons, List.filter_nil]
  rw [show jsTrim ([] : JStr) = [] from rfl]
  simp

theorem exportToCSV_ne_nil (L : List Link) :
    ¬(exportToCSV L (js ",") true).isEmpty = true := by
  unfold exportToCSV
  by_cases h : L.isEmpty
  · rw [if_pos h]
    decide
  · rw [if_neg h]
    simp only [List.isEmpty_iff]
    intro hx
    exact absurd (List.append_eq_nil.1 hx).2 (by decide)

theorem importFromCSV_export (L : List Link) (hL : L ≠ []) :
    importFromCSV (exportToCSV L (js ",") true) (js ",") true = L.map importedLinkObj := by
  unfold importFromCSV
  rw [if_neg (exportToCSV_ne_nil L)]
  rw [csv_lines_filter L hL]
  rw [if_neg (by simp)]
  rw [show (js "id,source,target" :: L.map rowOf).headD [] = js "id,source,target" from rfl]
  rw [show csvHeaderCells (js ",") (js "id,source,target") =
      [js "id", js "source", js "target"] from by decide]
  simp only [eq_self_iff_true, if_true, List.drop_succ_cons, List.drop_zero]
  rw [show csvIdxOf [js "id", js "source", js "target"] (js "id") (-1) = 0 from by decide]
  rw [show csvIdxOf [js "id", js "source", js "target"] (js "source") 1 = 1 from by decide]
  rw [show csvIdxOf [js "id", js "source", js "target"] (js "target") 2 = 2 from by decide]
  rw [List.map_map]
  apply List.map_congr_left
  intro l _
  exact csvRow_rowOf l

/-! ### JSON printer–parser round trip -/

theorem dropWhile_digits_none (s : JStr) (h : headNotDigit s = true) :
    s.dropWhile isDigitChar = s := by
  match s with
  | [] => rfl
  | c :: cs =>
    simp [headNotDigit] at h
    simp [List.dropWhile, h]

theorem skipWs_wsDrop (pre s : JStr) (h : ∀ c ∈ pre, isWsChar c = true) :
    skipWs (pre ++ s) = skipWs s :=
  dropWhile_append_all pre s h

theorem skipWs_cons (c : Char) (s : JStr) (h : isWsChar c = false) :
    skipWs (c :: s) = c :: s := by
  simp [skipWs, List.dropWhile, h]

theorem headNotDigit_of_numSafe (s : JStr) (h : headNumSafe s = true) :
    headNotDigit s = true := by
  match s with
  | [] => rfl
  | c :: cs =>
    simp [headNumSafe] at h
    simp [headNotDigit, h.1]

theorem parseJNum_natToChars (n : Nat) (X : JStr) (h : headNumSafe X = true) :
    parseJNum (natToChars n ++ X) = some ((n : ℚ), X) := by
  have hnd : headNotDigit X = true := headNotDigit_of_numSafe X h
  simp only [parseJNum]
  rw [takeWhile_append_all _ _ (natToChars_digits n), takeWhile_digits_none X hnd,
    List.append_nil, dropWhile_append_all _ _ (natToChars_digits n),
    dropWhile_digits_none X hnd]
  rw [if_neg (by simpa [List.isEmpty_iff] using natToChars_ne_nil n)]
  cases X with
  | nil => rw [valNat_natToChars]
  | cons c fs =>
    simp only [headNumSafe, Bool.and_eq_true, Bool.not_eq_true'] at h
    dsimp only
    rw [if_neg (by simpa using h.2)]
    rw [valNat_natToChars]

theorem parseJVal_natToChars (f n : Nat) (pre X : JStr)
    (hpre : ∀ c ∈ pre, isWsChar c = true) (h : headNumSafe X = true) :
    parseJVal (f + 1) (pre ++ (natToChars n ++ X)) = some (.num (some (n : ℚ)), X) := by
  obtain ⟨c, cs, hm⟩ : ∃ c cs, natToChars n = c :: cs := by
    cases hm : natToChars n with
    | nil => exact absurd hm (natToChars_ne_nil n)
    | cons c cs => exact ⟨c, cs, rfl⟩
  have hc : isDigitChar c = true :=
    natToChars_digits n c (by rw [hm]; exact List.mem_cons_self c cs)
  have hnum : parseJNum (c :: (cs ++ X)) = some ((n : ℚ), X) := by
    rw [← List.cons_append, ← hm]
    exact parseJNum_natToChars n X h
  rw [parseJVal]
  rw [show skipWs (pre ++ (natToChars n ++ X)) = c :: (cs ++ X) from by
    rw [skipWs_wsDrop _ _ hpre, hm, List.cons_append]
    exact skipWs_cons c _ (isDigitChar_not_ws c hc)]
  dsimp only
  rw [if_neg (digit_ne c '[' hc (by decide)), if_neg (digit_ne c '\x7b' hc (by decide)),
    if_neg (digit_ne c '"' hc (by decide)), if_neg (digit_ne c 't' hc (by decide)),
    if_neg (digit_ne c 'f' hc (by decide)), if_neg (digit_ne c 'n' hc (by decide)),
    if_neg (digit_ne c '-' hc (by decide)), if_pos hc]
  rw [hnum]

theorem parseJStrLit_key (key rest : JStr)
    (hk : key.all (fun c => !(c == '"') && !(c == '\\')) = true) :
    parseJStrLit (key ++ '"' :: rest) = some (key, rest) := by
  have hk' : ∀ c ∈ key, (c == '"') = false ∧ (c == '\\') = false := by
    intro c hc
    have := (List.all_eq_true.1 hk) c hc
    simp only [Bool.and_eq_true, Bool.not_eq_true'] at this
    exact this
  simp only [parseJStrLit]
  rw [takeWhile_append_all _ _ (fun c hc => by simp [(hk' c hc).1]),
    dropWhile_append_all _ _ (fun c hc => by simp [(hk' c hc).1])]
  rw [show List.takeWhile (fun c => !(c == '"')) ('"' :: rest) = [] from rfl,
    show List.dropWhile (fun c => !(c == '"')) ('"' :: rest) = '"' :: rest from rfl,
    List.append_nil]
  dsimp only
  rw [if_pos rfl]
  rw [if_neg (by
    intro hany
    obtain ⟨c, hc, hb⟩ := List.any_eq_true.1 hany
    rw [(hk' c hc).2] at hb
    exact Bool.false_ne_true hb)]

theorem parseJMembers_step (f n : Nat) (key pre mid tail : JStr)
    (hpre : ∀ c ∈ pre, isWsChar c = true)
    (hmid : ∀ c ∈ mid, isWsChar c = true)
    (hkey : key.all (fun c => !(c == '"') && !(c == '\\')) = true)
    (htail : headNumSafe tail = true) :
    parseJMembers (f + 2)
      (pre ++ '"' :: (key ++ '"' :: ':' :: (mid ++ (natToChars n ++ tail)))) =
      match skipWs tail with
      | [] => none
      | c3 :: r4 =>
        if c3 = ',' then
          match parseJMembers (f + 1) r4 with
          | some (fs, r5) => some (.objCons key (JsVal.num (some (n : ℚ))) fs, r5)
          | none => none
        else if c3 = '\x7d' then
          some (.objCons key (JsVal.num (some (n : ℚ))) .objNil, r4)
        else none := by
  rw [show f + 2 = (f + 1) + 1 from rfl]
  rw [parseJMembers]
  rw [show skipWs (pre ++ '"' :: (key ++ '"' :: ':' :: (mid ++ (natToChars n ++ tail)))) =
      '"' :: (key ++ '"' :: ':' :: (mid ++ (natToChars n ++ tail))) from by
    rw [skipWs_wsDrop _ _ hpre]
    exact skipWs_cons _ _ (by decide)]
  dsimp only
  rw [if_pos rfl]
  rw [parseJStrLit_key key _ hkey]
  dsimp only
  rw [show skipWs (':' :: (mid ++ (natToChars n ++ tail))) =
      ':' :: (mid ++ (natToChars n ++ tail)) from skipWs_cons _ _ (by decide)]
  dsimp only
  rw [if_pos rfl]
  rw [parseJVal_natToChars f n mid tail hmid htail]

theorem parseJMembers_linkTarget (f : Nat) (l : Link) (rest : JStr) :
    parseJMembers (f + 2)
      (js "\n    " ++ '"' :: (js "target" ++ '"' :: ':' :: (js " " ++
        (natToChars l.target ++ (js "\n  \x7d" ++ rest))))) =
      some (.objCons (js "target") (.num (some (l.target : ℚ))) .objNil, rest) := by
  rw [parseJMembers_step f l.target (js "target") (js "\n    ") (js " ")
    (js "\n  \x7d" ++ rest) (by decide) (by decide) (by decide) rfl]
  rw [show skipWs (js "\n  \x7d" ++ rest) = '\x7d' :: rest from by
    rw [show js "\n  \x7d" ++ rest = js "\n  " ++ ('\x7d' :: rest) from rfl]
    rw [skipWs_wsDrop _ _ (by decide)]
    exact skipWs_cons _ _ (by decide)]
  dsimp only
  rw [if_neg (by decide), if_pos rfl]

theorem parseJMembers_linkSource (f : Nat) (l : Link) (rest : JStr) :
    parseJMembers (f + 3)
      (js "\n    " ++ '"' :: (js "source" ++ '"' :: ':' :: (js " " ++
        (natToChars l.source ++ (js ",\n    \"target\": " ++
          (natToChars l.target ++ (js "\n  \x7d" ++ rest))))))) =
      some (.objCons (js "source") (.num (some (l.source : ℚ)))
        (.objCons (js "target") (.num (some (l.target : ℚ))) .objNil), rest) := by
  rw [show f + 3 = (f + 1) + 2 from rfl]
  rw [parseJMembers_step (f + 1) l.source (js "source") (js "\n    ") (js " ")
    (js ",\n    \"target\": " ++ (natToChars l.target ++ (js "\n  \x7d" ++ rest)))
    (by decide) (by decide) (by decide) rfl]
  rw [show skipWs (js ",\n    \"target\": " ++ (natToChars l.target ++ (js "\n  \x7d" ++ rest))) =
      ',' :: (js "\n    \"target\": " ++ (natToChars l.target ++ (js "\n  \x7d" ++ rest))) from by
    rw [show js ",\n    \"target\": " ++ (natToChars l.target ++ (js "\n  \x7d" ++ rest)) =
      ',' :: (js "\n    \"target\": " ++ (natToChars l.target ++ (js "\n  \x7d" ++ rest))) from rfl]
    exact skipWs_cons _ _ (by decide)]
  dsimp only
  rw [if_pos rfl]
  rw [show js "\n    \"target\": " ++ (natToChars l.target ++ (js "\n  \x7d" ++ rest)) =
    js "\n    " ++ '"' :: (js "target" ++ '"' :: ':' :: (js " " ++
      (natToChars l.target ++ (js "\n  \x7d" ++ rest)))) from rfl]
  rw [show f + 1 + 1 = f + 2 from rfl]
  rw [parseJMembers_linkTarget f l rest]

theorem parseJMembers_linkBody (f : Nat) (l : Link) (rest : JStr) :
    parseJMembers (f + 4)
      ('"' :: (js "id" ++ '"' :: ':' :: (js " " ++
        (natToChars l.id ++ (js ",\n    \"source\": " ++
          (natToChars l.source ++ (js ",\n    \"target\": " ++
            (natToChars l.target ++ (js "\n  \x7d" ++ rest))))))))) =
      some (linkJson l, rest) := by
  have hstep := parseJMembers_step (f + 2) l.id (js "id") [] (js " ")
    (js ",\n    \"source\": " ++ (natToChars l.source ++ (js ",\n    \"target\": " ++
      (natToChars l.target ++ (js "\n  \x7d" ++ rest)))))
    (by simp) (by decide) (by decide) rfl
  rw [List.nil_append] at hstep
  rw [show f + 4 = f + 2 + 2 from rfl, hstep]
  rw [show skipWs (js ",\n    \"source\": " ++ (natToChars l.source ++ (js ",\n    \"target\": " ++
      (natToChars l.target ++ (js "\n  \x7d" ++ rest))))) =
      ',' :: (js "\n    \"source\": " ++ (natToChars l.source ++ (js ",\n    \"target\": " ++
        (natToChars l.target ++ (js "\n  \x7d" ++ rest))))) from by
    rw [show js ",\n    \"source\": " ++ (natToChars l.source ++ (js ",\n    \"target\": " ++
        (natToChars l.target ++ (js "\n  \x7d" ++ rest)))) =
      ',' :: (js "\n    \"source\": " ++ (natToChars l.source ++ (js ",\n    \"target\": " ++
        (natToChars l.target ++ (js "\n  \x7d" ++ rest))))) from rfl]
    exact skipWs_cons _ _ (by decide)]
  dsimp only
  rw [if_pos rfl]
  rw [show js "\n    \"source\": " ++ (natToChars l.source ++ (js ",\n    \"target\": " ++
      (natToChars l.target ++ (js "\n  \x7d" ++ rest)))) =
    js "\n    " ++ '"' :: (js "source" ++ '"' :: ':' :: (js " " ++
      (natToChars l.source ++ (js ",\n    \"target\": " ++
        (natToChars l.target ++ (js "\n  \x7d" ++ rest)))))) from rfl]
  rw [show f + 2 + 1 = f + 3 from rfl]
  rw [parseJMembers_linkSource f l rest]
  rfl

theorem parseJVal_prettyLink (f : Nat) (l : Link) (pre rest : JStr)
    (hpre : ∀ c ∈ pre, isWsChar c = true) :
    parseJVal (f + 5) (pre ++ (prettyLinkObj l ++ rest)) = some (linkJson l, rest) := by
  have e1 : prettyLinkObj l ++ rest =
      '\x7b' :: (js "\n    " ++ ('"' :: (js "id" ++ '"' :: ':' :: (js " " ++
        (natToChars l.id ++ (js ",\n    \"source\": " ++
          (natToChars l.source ++ (js ",\n    \"target\": " ++
            (natToChars l.target ++ (js "\n  \x7d" ++ rest)))))))))) := by
    rw [prettyLinkObj]
    simp only [List.append_assoc]
    rfl
  rw [e1]
  rw [show f + 5 = (f + 4) + 1 from rfl]
  rw [parseJVal]
  rw [show skipWs (pre ++ '\x7b' :: (js "\n    " ++ ('"' :: (js "id" ++ '"' :: ':' :: (js " " ++
      (natToChars l.id ++ (js ",\n    \"source\": " ++
        (natToChars l.source ++ (js ",\n    \"target\": " ++
          (natToChars l.target ++ (js "\n  \x7d" ++ rest))))))))))) =
      '\x7b' :: (js "\n    " ++ ('"' :: (js "id" ++ '"' :: ':' :: (js " " ++
        (natToChars l.id ++ (js ",\n    \"source\": " ++
          (natToChars l.source ++ (js ",\n    \"target\": " ++
            (natToChars l.target ++ (js "\n  \x7d" ++ rest)))))))))) from by
    rw [skipWs_wsDrop _ _ hpre]
    exact skipWs_cons _ _ (by decide)]
  dsimp only
  rw [if_neg (by decide), if_pos rfl]
  rw [show skipWs (js "\n    " ++ ('"' :: (js "id" ++ '"' :: ':' :: (js " " ++
      (natToChars l.id ++ (js ",\n    \"source\": " ++
        (natToChars l.source ++ (js ",\n    \"target\": " ++
          (natToChars l.target ++ (js "\n  \x7d" ++ rest)))))))))) =
      '"' :: (js "id" ++ '"' :: ':' :: (js " " ++
        (natToChars l.id ++ (js ",\n    \"source\": " ++
          (natToChars l.source ++ (js ",\n    \"target\": " ++
            (natToChars l.target ++ (js "\n  \x7d" ++ rest))))))))  from by
    rw [skipWs_wsDrop _ _ (by decide)]
    exact skipWs_cons _ _ (by decide)]
  dsimp only
  rw [if_neg (by decide)]
  rw [parseJMembers_linkBody f l rest]

theorem parseJElems_links (L : List Link) : ∀ (f : Nat) (pre rest : JStr),
    L ≠ [] → (∀ c ∈ pre, isWsChar c = true) →
    parseJElems (7 * L.length + f + 7)
      (pre ++ (joinSep (js ",\n  ") (L.map prettyLinkObj) ++ (js "\n]" ++ rest))) =
      some (jsArr (L.map linkJson), rest) := by
  induction L with
  | nil => intro f pre rest hL _; exact absurd rfl hL
  | cons l L' ih =>
    intro f pre rest _ hpre
    by_cases hL' : L' = []
    · subst hL'
      rw [show joinSep (js ",\n  ") ((l :: ([] : List Link)).map prettyLinkObj) =
        prettyLinkObj l from rfl]
      rw [show 7 * (l :: ([] : List Link)).length + f + 7 = ((f + 8) + 5) + 1 from by
        simp only [List.length_cons, List.length_nil]; omega]
      rw [parseJElems]
      rw [parseJVal_prettyLink (f + 8) l pre (js "\n]" ++ rest) hpre]
      dsimp only
      rw [show skipWs (js "\n]" ++ rest) = ']' :: rest from by
        rw [show js "\n]" ++ rest = js "\n" ++ (']' :: rest) from rfl]
        rw [skipWs_wsDrop _ _ (by decide)]
        exact skipWs_cons _ _ (by decide)]
      dsimp only
      rw [if_neg (by decide), if_pos rfl]
      rfl
    · rw [List.map_cons, joinSep_cons _ _ _ (by simp [hL'])]
      simp only [List.append_assoc]
      rw [show 7 * (l :: L').length + f + 7 = ((7 * L'.length + (f + 6) + 7)) + 1 from by
        simp only [List.length_cons]; omega]
      rw [parseJElems]
      rw [show 7 * L'.length + (f + 6) + 7 = (7 * L'.length + f + 8) + 5 from by omega]
      rw [parseJVal_prettyLink (7 * L'.length + f + 8) l pre
        (js ",\n  " ++ (joinSep (js ",\n  ") (L'.map prettyLinkObj) ++ (js "\n]" ++ rest))) hpre]
      dsimp only
      rw [show skipWs (js ",\n  " ++ (joinSep (js ",\n  ") (L'.map prettyLinkObj) ++
          (js "\n]" ++ rest))) =
        ',' :: (js "\n  " ++ (joinSep (js ",\n  ") (L'.map prettyLinkObj) ++
          (js "\n]" ++ rest))) from by
        rw [show js ",\n  " ++ (joinSep (js ",\n  ") (L'.map prettyLinkObj) ++
            (js "\n]" ++ rest)) =
          ',' :: (js "\n  " ++ (joinSep (js ",\n  ") (L'.map prettyLinkObj) ++
            (js "\n]" ++ rest))) from rfl]
        exact skipWs_cons _ _ (by decide)]
      dsimp only
      rw [if_pos rfl]
      rw [show (7 : Nat) * L'.length + f + 8 + 5 = 7 * L'.length + (f + 6) + 7 from by omega]
      rw [ih (f + 6) (js "\n  ") rest hL' (by decide)]
      rfl

theorem prettyLinkObj_length (l : Link) : 13 ≤ (prettyLinkObj l).length := by
  rw [prettyLinkObj]
  simp only [List.length_append]
  have h12 : (js "\x7b\n    \"id\": ").length = 12 := rfl
  have h1 : 1 ≤ (natToChars l.id).length := by
    cases hm : natToChars l.id with
    | nil => exact absurd hm (natToChars_ne_nil l.id)
    | cons a b => simp
  omega

theorem lengths_sum_pretty (L : List Link) :
    13 * L.length ≤ ((L.map prettyLinkObj).map List.length).sum := by
  induction L with
  | nil => simp
  | cons a b ih =>
    simp only [List.map_cons, List.sum_cons, List.length_cons]
    have := prettyLinkObj_length a
    omega

theorem joinSep_length_ge (sep : JStr) (rows : List JStr) :
    (rows.map List.length).sum ≤ (joinSep sep rows).length := by
  induction rows with
  | nil => simp [joinSep]
  | cons s rest ih =>
    cases rest with
    | nil => simp [joinSep]
    | cons t ts =>
      rw [joinSep_cons _ _ _ (by simp)]
      simp only [List.map_cons, List.sum_cons, List.length_append]
      simp only [List.map_cons, List.sum_cons] at ih
      omega

theorem joinSep_pretty_head (l : Link) (L' : List Link) :
    ∃ J, joinSep (js ",\n  ") ((l :: L').map prettyLinkObj) = '\x7b' :: J := by
  rw [List.map_cons]
  cases hM : L'.map prettyLinkObj with
  | nil =>
    refine ⟨js "\n    \"id\": " ++ (natToChars l.id ++ (js ",\n    \"source\": " ++
      (natToChars l.source ++ (js ",\n    \"target\": " ++
        (natToChars l.target ++ js "\n  \x7d"))))), ?_⟩
    rw [show joinSep (js ",\n  ") [prettyLinkObj l] = prettyLinkObj l from rfl]
    rw [prettyLinkObj]
    simp only [List.append_assoc]
    rfl
  | cons m ms =>
    refine ⟨js "\n    \"id\": " ++ (natToChars l.id ++ (js ",\n    \"source\": " ++
      (natToChars l.source ++ (js ",\n    \"target\": " ++
        (natToChars l.target ++ (js "\n  \x7d" ++ (js ",\n  " ++
          joinSep (js ",\n  ") (m :: ms)))))))), ?_⟩
    rw [joinSep_cons _ _ _ (by simp)]
    rw [prettyLinkObj]
    simp only [List.append_assoc]
    rfl

theorem parseJVal_export (F : Nat) (L : List Link) (hL : L ≠ [])
    (hF : 7 * L.length + 8 ≤ F) :
    parseJVal F (exportToJSON L true) = some (jsArr (L.map linkJson), []) := by
  obtain ⟨l, L', rfl⟩ : ∃ l L', L = l :: L' := by
    cases L with
    | nil => exact absurd rfl hL
    | cons a b => exact ⟨a, b, rfl⟩
  obtain ⟨f, rfl⟩ : ∃ f, F = 7 * (l :: L').length + f + 8 :=
    ⟨F - (7 * (l :: L').length + 8), by omega⟩
  obtain ⟨J, hJ⟩ := joinSep_pretty_head l L'
  rw [show exportToJSON (l :: L') true =
    js "[\n  " ++ (joinSep (js ",\n  ") ((l :: L').map prettyLinkObj) ++ js "\n]") from by
    rw [exportToJSON, if_pos rfl]
    exact List.append_assoc _ _ _]
  rw [show (7 : Nat) * (l :: L').length + f + 8 = (7 * (l :: L').length + f + 7) + 1 from rfl]
  rw [parseJVal]
  rw [show skipWs (js "[\n  " ++ (joinSep (js ",\n  ") ((l :: L').map prettyLinkObj) ++ js "\n]")) =
    '[' :: (js "\n  " ++ (joinSep (js ",\n  ") ((l :: L').map prettyLinkObj) ++ js "\n]")) from by
    rw [show js "[\n  " ++ (joinSep (js ",\n  ") ((l :: L').map prettyLinkObj) ++ js "\n]") =
      '[' :: (js "\n  " ++ (joinSep (js ",\n  ") ((l :: L').map prettyLinkObj) ++ js "\n]")) from rfl]
    exact skipWs_cons _ _ (by decide)]
  dsimp only
  rw [if_pos rfl]
  rw [show skipWs (js "\n  " ++ (joinSep (js ",\n  ") ((l :: L').map prettyLinkObj) ++ js "\n]")) =
    '\x7b' :: (J ++ js "\n]") from by
    rw [skipWs_wsDrop _ _ (by decide), hJ, List.cons_append]
    exact skipWs_cons _ _ (by decide)]
  dsimp only
  rw [if_neg (by decide)]
  rw [show ('\x7b' :: (J ++ js "\n]") : JStr) =
    joinSep (js ",\n  ") ((l :: L').map prettyLinkObj) ++ js "\n]" from by
    rw [hJ, List.cons_append]]
  have helems := parseJElems_links (l :: L') f [] [] (by simp) (by simp)
  simp only [List.nil_append, List.append_nil] at helems
  rw [helems]

theorem exportToJSON_length (L : List Link) (hL : L ≠ []) :
    7 * L.length + 8 ≤ 2 * (exportToJSON L true).length + 4 := by
  obtain ⟨l, L', rfl⟩ : ∃ l L', L = l :: L' := by
    cases L with
    | nil => exact absurd rfl hL
    | cons a b => exact ⟨a, b, rfl⟩
  rw [show exportToJSON (l :: L') true =
    js "[\n  " ++ (joinSep (js ",\n  ") ((l :: L').map prettyLinkObj) ++ js "\n]") from by
    rw [exportToJSON, if_pos rfl]
    exact List.append_assoc _ _ _]
  simp only [List.length_append]
  have h1 := joinSep_length_ge (js ",\n  ") ((l :: L').map prettyLinkObj)
  have h2 := lengths_sum_pretty (l :: L')
  have e1 : (js "[\n  ").length = 4 := rfl
  have e2 : (js "\n]").length = 2 := rfl
  omega

theorem jsonParse_export (L : List Link) (hL : L ≠ []) :
    jsonParse (exportToJSON L true) = some (jsArr (L.map linkJson)) := by
  rw [jsonParse]
  rw [parseJVal_export (2 * (exportToJSON L true).length + 4) L hL (exportToJSON_length L hL)]
  rfl

theorem jsArrToList_jsArr (xs : List JsVal) : jsArrToList (jsArr xs) = xs := by
  induction xs with
  | nil => rfl
  | cons a b ih => simp only [jsArr, jsArrToList, ih]

theorem exportToJSON_ne_nil (L : List Link) : exportToJSON L true ≠ [] := by
  cases L with
  | nil => decide
  | cons a b =>
    rw [show exportToJSON (a :: b) true =
      js "[\n  " ++ (joinSep (js ",\n  ") ((a :: b).map prettyLinkObj) ++ js "\n]") from by
      rw [exportToJSON, if_pos rfl]
      exact List.append_assoc _ _ _]
    intro h
    have h2 := congrArg List.length h
    simp only [List.length_append, List.length_nil] at h2
    have e1 : (js "[\n  ").length = 4 := rfl
    omega

theorem jsParseIntVal_natNum (n : Nat) : jsParseIntVal (.num (some (n : ℚ))) = some (n : Int) := by
  rw [jsParseIntVal]
  rw [show jsToString (JsVal.num (some (n : ℚ))) = ratToChars ((n : ℚ)) from rfl]
  rw [ratToChars_natCast]
  have := jsParseInt_natToChars n [] rfl
  rwa [List.append_nil] at this

theorem jsonImportItem_linkJson (l : Link) : jsonImportItem (linkJson l) = importedLinkObj l := by
  have hid : jsGet (linkJson l) (js "id") = JsVal.num (some (l.id : ℚ)) := rfl
  have hsrc : jsGet (linkJson l) (js "source") = JsVal.num (some (l.source : ℚ)) := rfl
  have htgt : jsGet (linkJson l) (js "target") = JsVal.num (some (l.target : ℚ)) := rfl
  rw [jsonImportItem, hid, hsrc, htgt]
  rw [jsParseIntVal_natNum l.source, jsParseIntVal_natNum l.target]
  dsimp only
  rw [jsParseIntVal_natNum l.id]
  rw [importedLinkObj]
  simp [orZero, numOfParse, Int.cast_natCast]

theorem importFromJSON_export (L : List Link) (hL : L ≠ []) :
    importFromJSON (exportToJSON L true) = .ok (L.map importedLinkObj) := by
  rw [importFromJSON]
  rw [if_neg (by simpa [List.isEmpty_iff] using exportToJSON_ne_nil L)]
  rw [jsonParse_export L hL]
  obtain ⟨l, L', rfl⟩ : ∃ l L', L = l :: L' := by
    cases L with
    | nil => exact absurd rfl hL
    | cons a b => exact ⟨a, b, rfl⟩
  dsimp only
  rw [show jsIsArray (jsArr ((l :: L').map linkJson)) = true from by
    rw [List.map_cons]; rfl]
  rw [if_pos rfl]
  rw [jsArrToList_jsArr]
  rw [jsonImportItems_map ((l :: L').map linkJson) (by
    intro v hv
    obtain ⟨x, hx, rfl⟩ := List.mem_map.1 hv
    exact ⟨by simp [linkJson, jsObj], by simp [linkJson, jsObj]⟩)]
  dsimp only
  rw [List.map_map]
  have : (jsonImportItem ∘ linkJson) = importedLinkObj := by
    funext x
    exact jsonImportItem_linkJson x
  rw [this]

theorem imported_props (L : List Link) :
    (L.map importedLinkObj).length = L.length ∧
    ∀ k, k < L.length →
      jsGet ((L.map importedLinkObj).getD k .undef) (js "source") =
        .num (some ((L.getD k ⟨0, 0, 0⟩).source : ℚ)) ∧
      jsGet ((L.map importedLinkObj).getD k .undef) (js "target") =
        .num (some ((L.getD k ⟨0, 0, 0⟩).target : ℚ)) := by
  constructor
  · simp
  · intro k hk
    have h1 : (L.map importedLinkObj).getD k .undef = importedLinkObj (L.getD k ⟨0, 0, 0⟩) := by
      rw [List.getD_eq_getElem?_getD, List.getD_eq_getElem?_getD, List.getElem?_map]
      rw [List.getElem?_eq_getElem hk]
      rfl
    rw [h1]
    exact ⟨rfl, rfl⟩

/-- C1: for every nonempty link list and each supported format name among
ln, json and csv, exporting with exportLinks and importing the result back
with importLinks succeeds and yields a list of the same length whose k-th
element carries the same source and target numbers as the k-th input
link. -/
theorem C1_export_import_roundtrip (L : List Link) (hL : L ≠ [])
    (fmt : JStr) (hfmt : fmt = js "ln" ∨ fmt = js "json" ∨ fmt = js "csv") :
    ∃ out imported, exportLinks L fmt = .ok out ∧ importLinks out fmt = .ok imported ∧
      imported.length = L.length ∧
      ∀ k, k < L.length →
        jsGet (imported.getD k .undef) (js "source") =
          .num (some ((L.getD k ⟨0, 0, 0⟩).source : ℚ)) ∧
        jsGet (imported.getD k .undef) (js "target") =
          .num (some ((L.getD k ⟨0, 0, 0⟩).target : ℚ)) := by
  rcases hfmt with h | h | h
  · subst h
    refine ⟨exportToLN L, L.map importedLinkObj, ?_, ?_,
      (imported_props L).1, (imported_props L).2⟩
    · simp only [exportLinks]
      rw [if_pos (by decide)]
    · simp only [importLinks]
      rw [if_pos (by decide)]
      rw [importFromLN_export L hL]
  · subst h
    refine ⟨exportToJSON L true, L.map importedLinkObj, ?_, ?_,
      (imported_props L).1, (imported_props L).2⟩
    · simp only [exportLinks]
      rw [if_neg (by decide), if_pos (by decide)]
    · simp only [importLinks]
      rw [if_neg (by decide), if_pos (by decide)]
      exact importFromJSON_export L hL
  · subst h
    refine ⟨exportToCSV L (js ",") true, L.map importedLinkObj, ?_, ?_,
      (imported_props L).1, (imported_props L).2⟩
    · simp only [exportLinks]
      rw [if_neg (by decide), if_neg (by decide), if_pos (by decide)]
    · simp only [importLinks]
      rw [if_neg (by decide), if_neg (by decide), if_pos (by decide)]
      rw [importFromCSV_export L hL]

theorem C1_export_import_roundtrip_witness :
    ∃ out imported, exportLinks [(⟨1, 2, 3⟩ : Link)] (js "ln") = .ok out ∧
      importLinks out (js "ln") = .ok imported ∧
      imported.length = [(⟨1, 2, 3⟩ : Link)].length ∧
      ∀ k, k < [(⟨1, 2, 3⟩ : Link)].length →
        jsGet (imported.getD k .undef) (js "source") =
          .num (some (([(⟨1, 2, 3⟩ : Link)].getD k ⟨0, 0, 0⟩).source : ℚ)) ∧
        jsGet (imported.getD k .undef) (js "target") =
          .num (some (([(⟨1, 2, 3⟩ : Link)].getD k ⟨0, 0, 0⟩).target : ℚ)) :=
  C1_export_import_roundtrip [⟨1, 2, 3⟩] (by decide) (js "ln") (Or.inl rfl)

/-! ### The codec round trip -/

theorem find?_append_some {α : Type} (p : α → Bool) (l1 l2 : List α) (a : α)
    (h : l1.find? p = some a) : (l1 ++ l2).find? p = some a := by
  induction l1 with
  | nil => simp [List.find?] at h
  | cons x xs ih =>
    rw [List.cons_append]
    cases hb : p x with
    | true =>
      rw [List.find?_cons_of_pos _ hb] at h
      rw [List.find?_cons_of_pos _ hb]
      exact h
    | false =>
      rw [List.find?_cons_of_neg _ (by simp [hb])] at h
      rw [List.find?_cons_of_neg _ (by simp [hb])]
      exact ih h

theorem find?_append_none {α : Type} (p : α → Bool) (l1 l2 : List α)
    (h : l1.find? p = none) : (l1 ++ l2).find? p = l2.find? p := by
  induction l1 with
  | nil => simp
  | cons x xs ih =>
    cases hb : p x with
    | true =>
      rw [List.find?_cons_of_pos _ hb] at h
      exact absurd h (by simp)
    | false =>
      rw [List.find?_cons_of_neg _ (by simp [hb])] at h
      rw [List.cons_append, List.find?_cons_of_neg _ (by simp [hb])]
      exact ih h

theorem lookupLink_append_left (σ Δ : Store) (i : Nat) (l : SLink)
    (h : lookupLink σ i = some l) : lookupLink (σ ++ Δ) i = some l :=
  find?_append_some _ σ Δ l h

theorem mem_id_le (σ : Store) (hσ : IdsCanonical σ) (l : SLink) (hl : l ∈ σ) :
    1 ≤ l.id ∧ l.id ≤ σ.length := by
  have hm : l.id ∈ σ.map (fun x => x.id) := List.mem_map_of_mem _ hl
  rw [hσ] at hm
  have := List.mem_range'_1.1 hm
  omega

theorem lookupLink_none_of_gt (σ : Store) (hσ : IdsCanonical σ) (i : Nat)
    (hi : σ.length < i) : lookupLink σ i = none := by
  rw [lookupLink, List.find?_eq_none]
  intro x hx
  have hb := mem_id_le σ hσ x hx
  have hne : x.id ≠ i := by omega
  simp [hne]

theorem lookupLink_append_new (σ : Store) (hσ : IdsCanonical σ) (s t : Nat) :
    lookupLink (σ ++ [⟨σ.length + 1, s, t⟩]) (σ.length + 1) = some ⟨σ.length + 1, s, t⟩ := by
  rw [lookupLink]
  rw [find?_append_none _ σ _ (by
    have := lookupLink_none_of_gt σ hσ (σ.length + 1) (by omega)
    rwa [lookupLink] at this)]
  simp [List.find?]

theorem IdsCanonical_nil : IdsCanonical ([] : Store) := by
  simp [IdsCanonical]

theorem IdsCanonical_append_new (σ : Store) (hσ : IdsCanonical σ) (s t : Nat) :
    IdsCanonical (σ ++ [⟨σ.length + 1, s, t⟩]) := by
  rw [IdsCanonical, List.map_append, hσ]
  simp only [List.length_append, List.map_cons, List.map_nil, List.length_cons,
    List.length_nil]
  rw [List.range'_concat]
  congr 1
  simp
  omega

theorem updateLink_ids (σ : Store) (u s t : Nat) :
    (updateLink σ u s t).map (fun l => l.id) = σ.map (fun l => l.id) := by
  rw [updateLink, List.map_map]
  apply List.map_congr_left
  intro l _
  by_cases h : l.id = u <;> simp [h]

theorem length_updateLink (σ : Store) (u s t : Nat) :
    (updateLink σ u s t).length = σ.length := by
  simp [updateLink]

theorem IdsCanonical_update (σ : Store) (hσ : IdsCanonical σ) (u s t : Nat) :
    IdsCanonical (updateLink σ u s t) := by
  rw [IdsCanonical, updateLink_ids, length_updateLink]
  exact hσ

theorem lookupLink_update_other (σ : Store) (u s t d : Nat) (l : SLink)
    (h : lookupLink σ d = some l) (hd : d ≠ u) :
    lookupLink (updateLink σ u s t) d = some l := by
  induction σ with
  | nil => simp [lookupLink, List.find?] at h
  | cons a σ' ih =>
    rw [lookupLink] at h ⊢
    rw [updateLink, List.map_cons]
    have hid : ((if a.id = u then (⟨a.id, s, t⟩ : SLink) else a)).id = a.id := by
      by_cases h' : a.id = u <;> simp [h']
    cases hb : (a.id == d) with
    | true =>
      have haid : a.id = d := by simpa using hb
      rw [@List.find?_cons_of_pos _ (fun l => l.id == d) a σ' hb] at h
      rw [@List.find?_cons_of_pos _ (fun l => l.id == d)
        (if a.id = u then (⟨a.id, s, t⟩ : SLink) else a)
        (List.map (fun l => if l.id = u then (⟨l.id, s, t⟩ : SLink) else l) σ')
        (by simp only [hid]; exact hb)]
      rw [if_neg (by omega)]
      exact h
    | false =>
      rw [@List.find?_cons_of_neg _ (fun l => l.id == d) a σ' (by simp [hb])] at h
      rw [@List.find?_cons_of_neg _ (fun l => l.id == d)
        (if a.id = u then (⟨a.id, s, t⟩ : SLink) else a)
        (List.map (fun l => if l.id = u then (⟨l.id, s, t⟩ : SLink) else l) σ')
        (by simp only [hid]; simp [hb])]
      exact ih h

theorem lookupLink_update_self (σ : Store) (u s t : Nat) (l : SLink)
    (h : lookupLink σ u = some l) :
    lookupLink (updateLink σ u s t) u = some ⟨u, s, t⟩ := by
  induction σ with
  | nil => simp [lookupLink, List.find?] at h
  | cons a σ' ih =>
    rw [lookupLink] at h ⊢
    rw [updateLink, List.map_cons]
    have hid : ((if a.id = u then (⟨a.id, s, t⟩ : SLink) else a)).id = a.id := by
      by_cases h' : a.id = u <;> simp [h']
    cases hb : (a.id == u) with
    | true =>
      have haid : a.id = u := by simpa using hb
      rw [@List.find?_cons_of_pos _ (fun l => l.id == u)
        (if a.id = u then (⟨a.id, s, t⟩ : SLink) else a)
        (List.map (fun l => if l.id = u then (⟨l.id, s, t⟩ : SLink) else l) σ')
        (by simp only [hid]; exact hb)]
      simp [haid]
    | false =>
      have haid : a.id ≠ u := by simpa using hb
      rw [@List.find?_cons_of_neg _ (fun l => l.id == u)
        (if a.id = u then (⟨a.id, s, t⟩ : SLink) else a)
        (List.map (fun l => if l.id = u then (⟨l.id, s, t⟩ : SLink) else l) σ')
        (by simp only [hid]; simp [hb])]
      rw [@List.find?_cons_of_neg _ (fun l => l.id == u) a σ' (by simp [hb])] at h
      exact ih h

theorem exists_lookup_of_canonical (σ : Store) (hσ : IdsCanonical σ) (i : Nat)
    (h1 : 1 ≤ i) (h2 : i ≤ σ.length) : ∃ l, lookupLink σ i = some l := by
  cases hfind : lookupLink σ i with
  | some l => exact ⟨l, rfl⟩
  | none =>
    exfalso
    rw [lookupLink, List.find?_eq_none] at hfind
    have hm : i ∈ σ.map (fun l => l.id) := by
      rw [hσ]
      exact List.mem_range'_1.2 ⟨h1, by omega⟩
    obtain ⟨l, hl, hid⟩ := List.mem_map.1 hm
    have := hfind l hl
    simp [hid] at this

theorem encodeR_append (x : RValue) : ∀ σ : Store, ∃ Δ, (encodeR x σ).1 = σ ++ Δ := by
  induction x with
  | scalar n => intro σ; exact ⟨_, rfl⟩
  | rnil => intro σ; exact ⟨_, rfl⟩
  | rcons h t ihh iht =>
    intro σ
    obtain ⟨Δ1, h1⟩ := ihh σ
    obtain ⟨Δ2, h2⟩ := iht (encodeR h σ).1
    refine ⟨Δ1 ++ (Δ2 ++ [⟨(encodeR t (encodeR h σ).1).1.length + 1, (encodeR h σ).2,
      (encodeR t (encodeR h σ).1).2⟩]), ?_⟩
    simp only [encodeR, createLink]
    rw [h2, h1]
    simp [List.append_assoc]

theorem encodeR_root (x : RValue) (σ : Store) : (encodeR x σ).2 = (encodeR x σ).1.length := by
  cases x with
  | scalar n => simp [encodeR, createLink]
  | rnil => simp [encodeR, createLink]
  | rcons h t => simp [encodeR, createLink]

theorem encodeR_length (x : RValue) : ∀ σ : Store, σ.length < (encodeR x σ).1.length := by
  induction x with
  | scalar n => intro σ; simp [encodeR, createLink]
  | rnil => intro σ; simp [encodeR, createLink]
  | rcons h t ihh iht =>
    intro σ
    have h1 := ihh σ
    have h2 := iht (encodeR h σ).1
    simp only [encodeR, createLink, List.length_append, List.length_cons, List.length_nil]
    omega

theorem encodeR_canonical (x : RValue) : ∀ σ : Store, IdsCanonical σ →
    IdsCanonical (encodeR x σ).1 := by
  induction x with
  | scalar n => intro σ hσ; exact IdsCanonical_append_new σ hσ 0 (n + 1)
  | rnil => intro σ hσ; exact IdsCanonical_append_new σ hσ 0 0
  | rcons h t ihh iht =>
    intro σ hσ
    exact IdsCanonical_append_new _ (iht _ (ihh σ hσ)) _ _

theorem DecodesToIn_mono {P Q : Nat → Prop} (hPQ : ∀ d, P d → Q d) {σ : Store} {i : Nat}
    {x : RValue} (h : DecodesToIn P σ i x) : DecodesToIn Q σ i x := by
  induction h with
  | scalar i n hp hl => exact .scalar i n (hPQ i hp) hl
  | rnil i hp hl => exact .rnil i (hPQ i hp) hl
  | rcons i s t hv tv hp hl hs hh ht ihh iht =>
    exact .rcons i s t hv tv (hPQ i hp) hl hs ihh iht

theorem DecodesToIn_append {P : Nat → Prop} {σ : Store} {i : Nat} {x : RValue} (Δ : Store)
    (h : DecodesToIn P σ i x) : DecodesToIn P (σ ++ Δ) i x := by
  induction h with
  | scalar i n hp hl => exact .scalar i n hp (lookupLink_append_left σ Δ i _ hl)
  | rnil i hp hl => exact .rnil i hp (lookupLink_append_left σ Δ i _ hl)
  | rcons i s t hv tv hp hl hs hh ht ihh iht =>
    exact .rcons i s t hv tv hp (lookupLink_append_left σ Δ i _ hl) hs ihh iht

theorem DecodesToIn_update {P : Nat → Prop} {σ : Store} {i u s t : Nat} {x : RValue}
    (h : DecodesToIn P σ i x) (havoid : ∀ d, P d → d ≠ u) :
    DecodesToIn P (updateLink σ u s t) i x := by
  induction h with
  | scalar j n hp hl =>
    exact .scalar j n hp (lookupLink_update_other σ u s t j _ hl (havoid j hp))
  | rnil j hp hl =>
    exact .rnil j hp (lookupLink_update_other σ u s t j _ hl (havoid j hp))
  | rcons j s' t' hv tv hp hl hs hh ht ihh iht =>
    exact .rcons j s' t' hv tv hp (lookupLink_update_other σ u s t j _ hl (havoid j hp))
      hs ihh iht

theorem DecodesToIn_root_pos {P : Nat → Prop} {σ : Store} {i : Nat} {x : RValue}
    (hσ : IdsCanonical σ) (h : DecodesToIn P σ i x) : 1 ≤ i := by
  cases h with
  | scalar _ n hp hl => exact (mem_id_le σ hσ _ (List.mem_of_find?_eq_some hl)).1
  | rnil _ hp hl => exact (mem_id_le σ hσ _ (List.mem_of_find?_eq_some hl)).1
  | rcons _ s t hv tv hp hl hs hh ht =>
    exact (mem_id_le σ hσ _ (List.mem_of_find?_eq_some hl)).1

theorem decodeR_of_decodes {P : Nat → Prop} {σ : Store} {i : Nat} {x : RValue}
    (h : DecodesToIn P σ i x) : ∀ fuel, sizeR x ≤ fuel → decodeR fuel σ i = some x := by
  induction h with
  | scalar j n hp hl =>
    intro fuel hf
    cases fuel with
    | zero => simp [sizeR] at hf
    | succ f =>
      rw [decodeR, hl]
      dsimp only
      rw [if_pos rfl, if_neg (Nat.succ_ne_zero n)]
      simp
  | rnil j hp hl =>
    intro fuel hf
    cases fuel with
    | zero => simp [sizeR] at hf
    | succ f =>
      rw [decodeR, hl]
      dsimp only
      rw [if_pos rfl, if_pos rfl]
  | rcons j s t hv tv hp hl hs hdh hdt ihh iht =>
    intro fuel hf
    cases fuel with
    | zero => simp [sizeR] at hf
    | succ f =>
      have hf' : sizeR hv + sizeR tv + 1 ≤ f + 1 := by simpa [sizeR] using hf
      rw [decodeR, hl]
      dsimp only
      rw [if_neg hs]
      rw [ihh f (by omega), iht f (by omega)]

theorem encodeR_decodes (x : RValue) : ∀ σ : Store, IdsCanonical σ →
    DecodesToIn (fun d => σ.length < d ∧ d ≤ (encodeR x σ).1.length) (encodeR x σ).1
      (encodeR x σ).2 x := by
  induction x with
  | scalar n =>
    intro σ hσ
    exact DecodesToIn.scalar (σ.length + 1) n
      ⟨by omega, by simp [encodeR, createLink]⟩
      (lookupLink_append_new σ hσ 0 (n + 1))
  | rnil =>
    intro σ hσ
    exact DecodesToIn.rnil (σ.length + 1)
      ⟨by omega, by simp [encodeR, createLink]⟩
      (lookupLink_append_new σ hσ 0 0)
  | rcons h t ihh iht =>
    intro σ hσ
    have hc1 : IdsCanonical (encodeR h σ).1 := encodeR_canonical h σ hσ
    have hc2 : IdsCanonical (encodeR t (encodeR h σ).1).1 := encodeR_canonical t _ hc1
    have hr1 : (encodeR h σ).2 = (encodeR h σ).1.length := encodeR_root h σ
    have hr2 : (encodeR t (encodeR h σ).1).2 = (encodeR t (encodeR h σ).1).1.length :=
      encodeR_root t (encodeR h σ).1
    have hl1 : σ.length < (encodeR h σ).1.length := encodeR_length h σ
    have hl2 : (encodeR h σ).1.length < (encodeR t (encodeR h σ).1).1.length :=
      encodeR_length t (encodeR h σ).1
    obtain ⟨Δ2, hΔ2⟩ := encodeR_append t (encodeR h σ).1
    have hlenF : (encodeR (.rcons h t) σ).1.length = (encodeR t (encodeR h σ).1).1.length + 1 := by
      simp [encodeR, createLink]
    have Dh' : DecodesToIn (fun d => σ.length < d ∧ d ≤ (encodeR (.rcons h t) σ).1.length)
        (encodeR (.rcons h t) σ).1 (encodeR h σ).2 h := by
      have step1 := DecodesToIn_mono
        (fun d hd => (⟨hd.1, by omega⟩ :
          σ.length < d ∧ d ≤ (encodeR (.rcons h t) σ).1.length)) (ihh σ hσ)
      have step2 := DecodesToIn_append
        (Δ2 ++ [⟨(encodeR t (encodeR h σ).1).1.length + 1, (encodeR h σ).2,
          (encodeR t (encodeR h σ).1).2⟩]) step1
      rw [← List.append_assoc, ← hΔ2] at step2
      exact step2
    have Dt' : DecodesToIn (fun d => σ.length < d ∧ d ≤ (encodeR (.rcons h t) σ).1.length)
        (encodeR (.rcons h t) σ).1 (encodeR t (encodeR h σ).1).2 t := by
      have step1 := DecodesToIn_mono
        (fun d hd => (⟨by omega, by omega⟩ :
          σ.length < d ∧ d ≤ (encodeR (.rcons h t) σ).1.length)) (iht (encodeR h σ).1 hc1)
      exact DecodesToIn_append
        [⟨(encodeR t (encodeR h σ).1).1.length + 1, (encodeR h σ).2,
          (encodeR t (encodeR h σ).1).2⟩] step1
    exact DecodesToIn.rcons ((encodeR t (encodeR h σ).1).1.length + 1)
      (encodeR h σ).2 (encodeR t (encodeR h σ).1).2 h t
      ⟨by omega, by omega⟩
      (lookupLink_append_new (encodeR t (encodeR h σ).1).1 hc2 (encodeR h σ).2
        (encodeR t (encodeR h σ).1).2)
      (by omega)
      Dh' Dt'

theorem encodeR_roundtrip (x : RValue) (fuel : Nat) (hf : sizeR x ≤ fuel) :
    decodeR fuel (encodeR x []).1 (encodeR x []).2 = some x :=
  decodeR_of_decodes (encodeR_decodes x [] IdsCanonical_nil) fuel hf

theorem encodeEmb_append (R : List Nat) (v : MValue) :
    ∀ σ : Store, ∃ Δ, (encodeEmb R v σ).1 = σ ++ Δ := by
  induction v with
  | scalar n => intro σ; exact ⟨_, rfl⟩
  | mnil => intro σ; exact ⟨_, rfl⟩
  | mcons h t ihh iht =>
    intro σ
    obtain ⟨Δ1, h1⟩ := ihh σ
    obtain ⟨Δ2, h2⟩ := iht (encodeEmb R h σ).1
    refine ⟨Δ1 ++ (Δ2 ++ [⟨(encodeEmb R t (encodeEmb R h σ).1).1.length + 1,
      (encodeEmb R h σ).2, (encodeEmb R t (encodeEmb R h σ).1).2⟩]), ?_⟩
    simp only [encodeEmb, createLink]
    rw [h2, h1]
    simp [List.append_assoc]
  | ref j =>
    intro σ
    exact ⟨[], by simp [encodeEmb]⟩

theorem encodeEmb_length (R : List Nat) (v : MValue) :
    ∀ σ : Store, σ.length ≤ (encodeEmb R v σ).1.length := by
  induction v with
  | scalar n => intro σ; simp [encodeEmb, createLink]
  | mnil => intro σ; simp [encodeEmb, createLink]
  | mcons h t ihh iht =>
    intro σ
    have h1 := ihh σ
    have h2 := iht (encodeEmb R h σ).1
    simp only [encodeEmb, createLink, List.length_append, List.length_cons, List.length_nil]
    omega
  | ref j => intro σ; simp [encodeEmb]

theorem encodeEmb_canonical (R : List Nat) (v : MValue) : ∀ σ : Store, IdsCanonical σ →
    IdsCanonical (encodeEmb R v σ).1 := by
  induction v with
  | scalar n => intro σ hσ; exact IdsCanonical_append_new σ hσ 0 (n + 1)
  | mnil => intro σ hσ; exact IdsCanonical_append_new σ hσ 0 0
  | mcons h t ihh iht =>
    intro σ hσ
    exact IdsCanonical_append_new _ (iht _ (ihh σ hσ)) _ _
  | ref j => intro σ hσ; exact hσ

theorem R_getD (n k : Nat) (hk : k < n) :
    (((List.range n).map (fun i => i + 1)).getD k 0) = k + 1 := by
  rw [List.getD_eq_getElem?_getD, List.getElem?_map]
  rw [List.getElem?_eq_getElem (by simpa using hk)]
  simp

theorem sigma0_canonical (n : Nat) :
    IdsCanonical ((List.range n).map (fun i => (⟨i + 1, 0, 0⟩ : SLink))) := by
  rw [IdsCanonical, List.map_map, List.length_map, List.length_range]
  rw [List.range'_eq_map_range]
  apply List.map_congr_left
  intro i _
  simp [Nat.add_comm]

theorem finalize_append (R : List Nat) (l1 l2 : List (Nat × MValue)) :
    ∀ σ : Store,
    finalizeEntries R (l1 ++ l2) σ = finalizeEntries R l2 (finalizeEntries R l1 σ) := by
  induction l1 with
  | nil => intro σ; rfl
  | cons p rest ih =>
    intro σ
    rw [List.cons_append, finalizeEntries, finalizeEntries, ih]

theorem enum_take_succ (entries : List MValue) (j : Nat) (hj : j < entries.length) :
    entries.enum.take (j + 1) = entries.enum.take j ++ [(j, entries.getD j .mnil)] := by
  rw [List.take_succ]
  congr 1
  rw [List.getElem?_enum, List.getElem?_eq_getElem hj]
  rw [show entries.getD j .mnil = entries[j] from by
    rw [List.getD_eq_getElem?_getD, List.getElem?_eq_getElem hj]
    rfl]
  rfl

theorem EncodesVal_mono {P Q : Nat → Prop} (hPQ : ∀ d, P d → Q d) {σ : Store} {n i : Nat}
    {v : MValue} (h : EncodesVal P σ n i v) : EncodesVal Q σ n i v := by
  induction h with
  | scalar i m hp hl => exact .scalar i m (hPQ i hp) hl
  | mnil i hp hl => exact .mnil i (hPQ i hp) hl
  | mcons i s t hv tv hp hl hs hh ht ihh iht => exact .mcons i s t hv tv (hPQ i hp) hl hs ihh iht
  | ref k hk => exact .ref k hk

theorem EncodesVal_append {P : Nat → Prop} {σ : Store} {n i : Nat} {v : MValue} (Δ : Store)
    (h : EncodesVal P σ n i v) : EncodesVal P (σ ++ Δ) n i v := by
  induction h with
  | scalar i m hp hl => exact .scalar i m hp (lookupLink_append_left σ Δ i _ hl)
  | mnil i hp hl => exact .mnil i hp (lookupLink_append_left σ Δ i _ hl)
  | mcons i s t hv tv hp hl hs hh ht ihh iht =>
    exact .mcons i s t hv tv hp (lookupLink_append_left σ Δ i _ hl) hs ihh iht
  | ref k hk => exact .ref k hk

theorem EncodesVal_update {P : Nat → Prop} {σ : Store} {n i u s t : Nat} {v : MValue}
    (h : EncodesVal P σ n i v) (havoid : ∀ d, P d → d ≠ u) :
    EncodesVal P (updateLink σ u s t) n i v := by
  induction h with
  | scalar j m hp hl =>
    exact .scalar j m hp (lookupLink_update_other σ u s t j _ hl (havoid j hp))
  | mnil j hp hl =>
    exact .mnil j hp (lookupLink_update_other σ u s t j _ hl (havoid j hp))
  | mcons j s' t' hv tv hp hl hs hh ht ihh iht =>
    exact .mcons j s' t' hv tv hp (lookupLink_update_other σ u s t j _ hl (havoid j hp))
      hs ihh iht
  | ref k hk => exact .ref k hk

theorem EncodesVal_root_pos {P : Nat → Prop} {σ : Store} {n i : Nat} {v : MValue}
    (hσ : IdsCanonical σ) (h : EncodesVal P σ n i v) : 1 ≤ i := by
  cases h with
  | scalar _ m hp hl => exact (mem_id_le σ hσ _ (List.mem_of_find?_eq_some hl)).1
  | mnil _ hp hl => exact (mem_id_le σ hσ _ (List.mem_of_find?_eq_some hl)).1
  | mcons _ s t hv tv hp hl hs hh ht =>
    exact (mem_id_le σ hσ _ (List.mem_of_find?_eq_some hl)).1
  | ref k hk => omega

theorem encodeEmb_encodes (n : Nat) (R : List Nat)
    (hRk : ∀ k, k < n → R.getD k 0 = k + 1) :
    ∀ (v : MValue) (σ : Store), IdsCanonical σ → n ≤ σ.length → RefsIn n v = true →
    EncodesVal (fun d => n < d) (encodeEmb R v σ).1 n (encodeEmb R v σ).2 v := by
  intro v
  induction v with
  | scalar m =>
    intro σ hσ hlen _
    exact EncodesVal.scalar (σ.length + 1) m (by omega)
      (lookupLink_append_new σ hσ 0 (m + 1))
  | mnil =>
    intro σ hσ hlen _
    exact EncodesVal.mnil (σ.length + 1) (by omega)
      (lookupLink_append_new σ hσ 0 0)
  | mcons h t ihh iht =>
    intro σ hσ hlen hri
    obtain ⟨hrih, hrit⟩ : RefsIn n h = true ∧ RefsIn n t = true := by
      simpa [RefsIn] using hri
    have hc1 : IdsCanonical (encodeEmb R h σ).1 := encodeEmb_canonical R h σ hσ
    have hc2 : IdsCanonical (encodeEmb R t (encodeEmb R h σ).1).1 :=
      encodeEmb_canonical R t _ hc1
    have hlen1 : σ.length ≤ (encodeEmb R h σ).1.length := encodeEmb_length R h σ
    have hlen2 : (encodeEmb R h σ).1.length ≤ (encodeEmb R t (encodeEmb R h σ).1).1.length :=
      encodeEmb_length R t _
    obtain ⟨Δ2, hΔ2⟩ := encodeEmb_append R t (encodeEmb R h σ).1
    have Dh := ihh σ hσ hlen hrih
    have Dt := iht (encodeEmb R h σ).1 hc1 (le_trans hlen hlen1) hrit
    have hsne : (encodeEmb R h σ).2 ≠ 0 := by
      have := EncodesVal_root_pos hc1 Dh
      omega
    have Dh2 : EncodesVal (fun d => n < d) (encodeEmb R t (encodeEmb R h σ).1).1 n
        (encodeEmb R h σ).2 h := by
      rw [hΔ2]
      exact EncodesVal_append Δ2 Dh
    have Dh3 := EncodesVal_append
      [⟨(encodeEmb R t (encodeEmb R h σ).1).1.length + 1, (encodeEmb R h σ).2,
        (encodeEmb R t (encodeEmb R h σ).1).2⟩] Dh2
    have Dt3 := EncodesVal_append
      [⟨(encodeEmb R t (encodeEmb R h σ).1).1.length + 1, (encodeEmb R h σ).2,
        (encodeEmb R t (encodeEmb R h σ).1).2⟩] Dt
    exact EncodesVal.mcons ((encodeEmb R t (encodeEmb R h σ).1).1.length + 1)
      (encodeEmb R h σ).2 (encodeEmb R t (encodeEmb R h σ).1).2 h t
      (by omega)
      (lookupLink_append_new (encodeEmb R t (encodeEmb R h σ).1).1 hc2 (encodeEmb R h σ).2
        (encodeEmb R t (encodeEmb R h σ).1).2)
      hsne Dh3 Dt3
  | ref k =>
    intro σ hσ hlen hri
    have hk : k < n := by simpa [RefsIn] using hri
    show EncodesVal (fun d => n < d) σ n (R.getD k 0) (.ref k)
    rw [hRk k hk]
    exact EncodesVal.ref k hk

theorem encodeEntryTop_encodes (entries : List MValue) (R : List Nat)
    (hRk : ∀ k, k < entries.length → R.getD k 0 = k + 1)
    (j : Nat) (hjn : j < entries.length) (σ : Store) (hσ : IdsCanonical σ)
    (hlen : entries.length ≤ σ.length)
    (htop : TopNotRef (entries.getD j .mnil) = true)
    (hri : RefsIn entries.length (entries.getD j .mnil) = true)
    (htab : ∀ i, i < j → EncodesVal (fun d => d = i + 1 ∨ entries.length < d) σ
      entries.length (i + 1) (entries.getD i .mnil)) :
    IdsCanonical (encodeEntryTop R j (entries.getD j .mnil) σ) ∧
    entries.length ≤ (encodeEntryTop R j (entries.getD j .mnil) σ).length ∧
    ∀ i, i < j + 1 → EncodesVal (fun d => d = i + 1 ∨ entries.length < d)
      (encodeEntryTop R j (entries.getD j .mnil) σ) entries.length (i + 1)
      (entries.getD i .mnil) := by
  have hRj : R.getD j 0 = j + 1 := hRk j hjn
  cases hv : entries.getD j .mnil with
  | scalar m =>
    refine ⟨IdsCanonical_update σ hσ _ _ _, ?_, ?_⟩
    · show entries.length ≤ (updateLink σ (R.getD j 0) 0 (m + 1)).length
      rw [length_updateLink]
      exact hlen
    · intro i hi
      by_cases hij : i < j
      · exact EncodesVal_update (htab i hij)
          (by intro d hd; rw [hRj]; rcases hd with h1 | h2 <;> omega)
      · have hij' : i = j := by omega
        subst hij'
        rw [hv]
        obtain ⟨l, hl⟩ := exists_lookup_of_canonical σ hσ (i + 1) (by omega) (by omega)
        show EncodesVal (fun d => d = i + 1 ∨ entries.length < d)
          (updateLink σ (R.getD i 0) 0 (m + 1)) entries.length (i + 1) (.scalar m)
        rw [hRj]
        exact EncodesVal.scalar (i + 1) m (Or.inl rfl)
          (lookupLink_update_self σ (i + 1) 0 (m + 1) l hl)
  | mnil =>
    refine ⟨IdsCanonical_update σ hσ _ _ _, ?_, ?_⟩
    · show entries.length ≤ (updateLink σ (R.getD j 0) 0 0).length
      rw [length_updateLink]
      exact hlen
    · intro i hi
      by_cases hij : i < j
      · exact EncodesVal_update (htab i hij)
          (by intro d hd; rw [hRj]; rcases hd with h1 | h2 <;> omega)
      · have hij' : i = j := by omega
        subst hij'
        rw [hv]
        obtain ⟨l, hl⟩ := exists_lookup_of_canonical σ hσ (i + 1) (by omega) (by omega)
        show EncodesVal (fun d => d = i + 1 ∨ entries.length < d)
          (updateLink σ (R.getD i 0) 0 0) entries.length (i + 1) .mnil
        rw [hRj]
        exact EncodesVal.mnil (i + 1) (Or.inl rfl)
          (lookupLink_update_self σ (i + 1) 0 0 l hl)
  | mcons h t =>
    rw [hv] at hri
    obtain ⟨hrih, hrit⟩ : RefsIn entries.length h = true ∧ RefsIn entries.length t = true := by
      simpa [RefsIn] using hri
    have hc1 : IdsCanonical (encodeEmb R h σ).1 := encodeEmb_canonical R h σ hσ
    have hc2 : IdsCanonical (encodeEmb R t (encodeEmb R h σ).1).1 :=
      encodeEmb_canonical R t _ hc1
    have hlen1 : σ.length ≤ (encodeEmb R h σ).1.length := encodeEmb_length R h σ
    have hlen2 : (encodeEmb R h σ).1.length ≤ (encodeEmb R t (encodeEmb R h σ).1).1.length :=
      encodeEmb_length R t _
    obtain ⟨Δ1, hΔ1⟩ := encodeEmb_append R h σ
    obtain ⟨Δ2, hΔ2⟩ := encodeEmb_append R t (encodeEmb R h σ).1
    have htab2 : ∀ i, i < j → EncodesVal (fun d => d = i + 1 ∨ entries.length < d)
        (encodeEmb R t (encodeEmb R h σ).1).1 entries.length (i + 1) (entries.getD i .mnil) := by
      intro i hi
      rw [hΔ2, hΔ1]
      rw [List.append_assoc]
      exact EncodesVal_append (Δ1 ++ Δ2) (htab i hi)
    have Dh := encodeEmb_encodes entries.length R hRk h σ hσ hlen hrih
    have Dt := encodeEmb_encodes entries.length R hRk t (encodeEmb R h σ).1 hc1
      (le_trans hlen hlen1) hrit
    have hsne : (encodeEmb R h σ).2 ≠ 0 := by
      have := EncodesVal_root_pos hc1 Dh
      omega
    have Dh2 : EncodesVal (fun d => entries.length < d)
        (encodeEmb R t (encodeEmb R h σ).1).1 entries.length (encodeEmb R h σ).2 h := by
      rw [hΔ2]
      exact EncodesVal_append Δ2 Dh
    have havoid : ∀ d, entries.length < d → d ≠ R.getD j 0 := by
      intro d hd
      rw [hRj]
      omega
    have Dh3 : EncodesVal (fun d => entries.length < d)
        (updateLink (encodeEmb R t (encodeEmb R h σ).1).1 (R.getD j 0)
          (encodeEmb R h σ).2 (encodeEmb R t (encodeEmb R h σ).1).2)
        entries.length (encodeEmb R h σ).2 h :=
      EncodesVal_update Dh2 havoid
    have Dt3 : EncodesVal (fun d => entries.length < d)
        (updateLink (encodeEmb R t (encodeEmb R h σ).1).1 (R.getD j 0)
          (encodeEmb R h σ).2 (encodeEmb R t (encodeEmb R h σ).1).2)
        entries.length (encodeEmb R t (encodeEmb R h σ).1).2 t :=
      EncodesVal_update Dt havoid
    obtain ⟨l, hl⟩ := exists_lookup_of_canonical (encodeEmb R t (encodeEmb R h σ).1).1 hc2
      (j + 1) (by omega) (by omega)
    refine ⟨IdsCanonical_update _ hc2 _ _ _, ?_, ?_⟩
    · show entries.length ≤ (updateLink (encodeEmb R t (encodeEmb R h σ).1).1 (R.getD j 0)
        (encodeEmb R h σ).2 (encodeEmb R t (encodeEmb R h σ).1).2).length
      rw [length_updateLink]
      omega
    · intro i hi
      by_cases hij : i < j
      · exact EncodesVal_update (htab2 i hij)
          (by intro d hd; rw [hRj]; rcases hd with h1 | h2 <;> omega)
      · have hij' : i = j := by omega
        subst hij'
        rw [hv]
        show EncodesVal (fun d => d = i + 1 ∨ entries.length < d)
          (updateLink (encodeEmb R t (encodeEmb R h σ).1).1 (R.getD i 0)
            (encodeEmb R h σ).2 (encodeEmb R t (encodeEmb R h σ).1).2)
          entries.length (i + 1) (.mcons h t)
        refine EncodesVal.mcons (i + 1) (encodeEmb R h σ).2
          (encodeEmb R t (encodeEmb R h σ).1).2 h t (Or.inl rfl) ?_ hsne
          (EncodesVal_mono (fun d hd => Or.inr hd) Dh3)
          (EncodesVal_mono (fun d hd => Or.inr hd) Dt3)
        rw [hRj]
        exact lookupLink_update_self _ (i + 1) _ _ l hl
  | ref k =>
    rw [hv] at htop
    simp [TopNotRef] at htop

theorem finalize_encodes (entries : List MValue)
    (hOK : ∀ i, i < entries.length → TopNotRef (entries.getD i .mnil) = true ∧
      RefsIn entries.length (entries.getD i .mnil) = true) :
    ∀ j, j ≤ entries.length →
    IdsCanonical (finalizeEntries ((List.range entries.length).map (fun i => i + 1))
      (entries.enum.take j)
      ((List.range entries.length).map (fun i => (⟨i + 1, 0, 0⟩ : SLink)))) ∧
    entries.length ≤ (finalizeEntries ((List.range entries.length).map (fun i => i + 1))
      (entries.enum.take j)
      ((List.range entries.length).map (fun i => (⟨i + 1, 0, 0⟩ : SLink)))).length ∧
    ∀ i, i < j → EncodesVal (fun d => d = i + 1 ∨ entries.length < d)
      (finalizeEntries ((List.range entries.length).map (fun i => i + 1))
        (entries.enum.take j)
        ((List.range entries.length).map (fun i => (⟨i + 1, 0, 0⟩ : SLink))))
      entries.length (i + 1) (entries.getD i .mnil) := by
  intro j
  induction j with
  | zero =>
    intro _
    rw [List.take_zero]
    refine ⟨sigma0_canonical _, ?_, ?_⟩
    · simp [finalizeEntries]
    · intro i hi
      omega
  | succ j ih =>
    intro hj
    have hj' : j < entries.length := by omega
    obtain ⟨hc, hl, htab⟩ := ih (by omega)
    rw [enum_take_succ entries j hj', finalize_append]
    simp only [finalizeEntries]
    exact encodeEntryTop_encodes entries
      ((List.range entries.length).map (fun i => i + 1))
      (fun k hk => R_getD entries.length k hk) j hj' _ hc hl
      (hOK j hj').1 (hOK j hj').2 htab

theorem resolveEntryG_agree (entries : List MValue) (rank : Nat → Nat)
    (hE : ResolvableBy entries rank) :
    ∀ r, ∀ f g : Nat, r ≤ f → r ≤ g →
    ∀ v : MValue, RefsIn entries.length v = true → RefsRanked rank r v = true →
    resolveInG (fun j => resolveEntryG entries f j) v =
      resolveInG (fun j => resolveEntryG entries g j) v := by
  intro r
  induction r using Nat.strong_induction_on with
  | _ r ihr =>
    intro f g hf hg v
    induction v with
    | scalar m => intro _ _; rfl
    | mnil => intro _ _; rfl
    | mcons h t ihh iht =>
      intro hri hrr
      obtain ⟨hri1, hri2⟩ : RefsIn entries.length h = true ∧
          RefsIn entries.length t = true := by simpa [RefsIn] using hri
      obtain ⟨hrr1, hrr2⟩ : RefsRanked rank r h = true ∧
          RefsRanked rank r t = true := by simpa [RefsRanked] using hrr
      simp only [resolveInG, ihh hri1 hrr1, iht hri2 hrr2]
    | ref j =>
      intro hri hrr
      have hj : j < entries.length := by simpa [RefsIn] using hri
      have hrj : rank j < r := by simpa [RefsRanked] using hrr
      show resolveEntryG entries f j = resolveEntryG entries g j
      cases f with
      | zero => exact absurd hf (by omega)
      | succ f' =>
        cases g with
        | zero => exact absurd hg (by omega)
        | succ g' =>
          simp only [resolveEntryG]
          exact ihr (rank j) (by omega) f' g' (by omega) (by omega) (entries.getD j .mnil)
            (hE j hj).2.1 (hE j hj).2.2

theorem resolveInG_pointwise (entries : List MValue) (rank : Nat → Nat)
    (hE : ResolvableBy entries rank) (r : Nat) :
    ∀ v : MValue, RefsIn entries.length v = true → RefsRanked rank r v = true →
    ∀ f : Nat, r ≤ f →
    resolveInG (fun j => resolveEntryG entries f j) v =
      resolveInG (fun j => resolveR entries rank j) v := by
  intro v
  induction v with
  | scalar m => intro _ _ f _; rfl
  | mnil => intro _ _ f _; rfl
  | mcons h t ihh iht =>
    intro hri hrr f hf
    obtain ⟨hri1, hri2⟩ : RefsIn entries.length h = true ∧
        RefsIn entries.length t = true := by simpa [RefsIn] using hri
    obtain ⟨hrr1, hrr2⟩ : RefsRanked rank r h = true ∧
        RefsRanked rank r t = true := by simpa [RefsRanked] using hrr
    simp only [resolveInG, ihh hri1 hrr1 f hf, iht hri2 hrr2 f hf]
  | ref j =>
    intro hri hrr f hf
    have hj : j < entries.length := by simpa [RefsIn] using hri
    have hrj : rank j < r := by simpa [RefsRanked] using hrr
    show resolveEntryG entries f j = resolveR entries rank j
    cases f with
    | zero => exact absurd hf (by omega)
    | succ f' =>
      rw [resolveR]
      simp only [resolveEntryG]
      exact resolveEntryG_agree entries rank hE (rank j) f' (rank j) (by omega) (le_refl _)
        (entries.getD j .mnil) (hE j hj).2.1 (hE j hj).2.2

theorem resolveR_unfold (entries : List MValue) (rank : Nat → Nat)
    (hE : ResolvableBy entries rank) (i : Nat) (hin : i < entries.length) :
    resolveR entries rank i =
      resolveInG (fun j => resolveR entries rank j) (entries.getD i .mnil) := by
  rw [resolveR]
  simp only [resolveEntryG]
  exact resolveInG_pointwise entries rank hE (rank i) (entries.getD i .mnil)
    (hE i hin).2.1 (hE i hin).2.2 (rank i) (le_refl _)

theorem decodes_of_encodesVal (entries : List MValue) (rank : Nat → Nat) (σF : Store)
    (hE : ResolvableBy entries rank)
    (htab : ∀ k, k < entries.length →
      EncodesVal (fun _ => True) σF entries.length (k + 1) (entries.getD k .mnil)) :
    ∀ r i, i < entries.length → rank i < r →
    DecodesToIn (fun _ => True) σF (i + 1) (resolveR entries rank i) := by
  intro r
  induction r using Nat.strong_induction_on with
  | _ r ihr =>
    intro i hin hri
    have inner : ∀ (a : Nat) (w : MValue),
        EncodesVal (fun _ => True) σF entries.length a w →
        RefsRanked rank (rank i) w = true →
        DecodesToIn (fun _ => True) σF a
          (resolveInG (fun j => resolveR entries rank j) w) := by
      intro a w hw
      induction hw with
      | scalar b m _ hl => intro _; exact DecodesToIn.scalar b m trivial hl
      | mnil b _ hl => intro _; exact DecodesToIn.rnil b trivial hl
      | mcons b s t h tl _ hl hs hh htl ihh ihtl =>
        intro hrr
        obtain ⟨h1, h2⟩ : RefsRanked rank (rank i) h = true ∧
            RefsRanked rank (rank i) tl = true := by simpa [RefsRanked] using hrr
        exact DecodesToIn.rcons b s t _ _ trivial hl hs (ihh h1) (ihtl h2)
      | ref k hk =>
        intro hrr
        have hrk : rank k < rank i := by simpa [RefsRanked] using hrr
        show DecodesToIn (fun _ => True) σF (k + 1) (resolveR entries rank k)
        exact ihr (rank i) (by omega) k hk (by omega)
    have hval := inner (i + 1) (entries.getD i .mnil) (htab i hin) (hE i hin).2.2
    rwa [← resolveR_unfold entries rank hE i hin] at hval

theorem decodeR_self_loop : ∀ f : Nat, decodeR f [⟨1, 1, 2⟩, ⟨2, 0, 0⟩] 1 = none := by
  intro f
  induction f with
  | zero => rfl
  | succ f ih =>
    rw [decodeR]
    rw [show lookupLink [⟨1, 1, 2⟩, ⟨2, 0, 0⟩] 1 = some ⟨1, 1, 2⟩ from rfl]
    dsimp only
    rw [if_neg (by decide)]
    rw [ih]

/-- C2 counterexample: for the self-referential map with the single
entry a = [a], every cross-reference names a key of the map (nothing
dangles), and encoding succeeds, reserving link 1 and chaining it
through itself; yet decoding the key yields no finite sequence at any
fuel, so the decoded structure cannot equal the input and the claimed
round trip fails for a cyclic reference map. -/
theorem C2_codec_counterexample :
    RefsIn 1 (([MValue.mcons (.ref 0) .mnil] : List MValue).getD 0 .mnil) = true ∧
    (encodeReferenceMap [MValue.mcons (.ref 0) .mnil]).1 = [⟨1, 1, 2⟩, ⟨2, 0, 0⟩] ∧
    ∀ fuel : Nat,
      (decodeToReferenceMap fuel (encodeReferenceMap [MValue.mcons (.ref 0) .mnil]).1
        (encodeReferenceMap [MValue.mcons (.ref 0) .mnil]).2).getD 0 none = none := by
  refine ⟨by decide, by decide, ?_⟩
  intro fuel
  rw [show (encodeReferenceMap [MValue.mcons (.ref 0) .mnil]).1 = [⟨1, 1, 2⟩, ⟨2, 0, 0⟩]
    from by decide]
  show decodeR fuel [⟨1, 1, 2⟩, ⟨2, 0, 0⟩] 1 = none
  exact decodeR_self_loop fuel

/-- C2 amended: the codec round trip, modelled from the specification.
First, a plain recursive sequence decodes back from the store its
encoding produces, with any fuel at least its size. Second, for a
reference map whose entries are sequences or scalars, whose references
all name keys of the map, and whose reference graph is rankable (each
reference strictly descends in rank — forward references included,
cyclic ones excluded as unresolvable), every position of the decoded
reference map holds exactly the reference-free resolution of the
corresponding entry. Third, that resolution replaces each
cross-reference by the resolution of the entry it names, so a resolved
reference points at the same decoded value as its referent entry. -/
theorem C2_codec_amended :
    (∀ (x : RValue) (fuel : Nat), sizeR x ≤ fuel →
      decodeR fuel (encodeR x []).1 (encodeR x []).2 = some x) ∧
    (∀ (entries : List MValue) (rank : Nat → Nat), ResolvableBy entries rank →
      ∀ i, i < entries.length → ∀ fuel, sizeR (resolveR entries rank i) ≤ fuel →
        (decodeToReferenceMap fuel (encodeReferenceMap entries).1
          (encodeReferenceMap entries).2).getD i none = some (resolveR entries rank i)) ∧
    (∀ (entries : List MValue) (rank : Nat → Nat), ResolvableBy entries rank →
      ∀ i, i < entries.length →
        resolveR entries rank i =
          resolveInG (fun j => resolveR entries rank j) (entries.getD i .mnil)) := by
  refine ⟨?_, ?_, ?_⟩
  · intro x fuel hf
    exact encodeR_roundtrip x fuel hf
  · intro entries rank hE i hin fuel hfuel
    have hOK : ∀ k, k < entries.length → TopNotRef (entries.getD k .mnil) = true ∧
        RefsIn entries.length (entries.getD k .mnil) = true :=
      fun k hk => ⟨(hE k hk).1, (hE k hk).2.1⟩
    have hful : entries.enum.take entries.length = entries.enum := by
      rw [show entries.length = entries.enum.length from (List.enum_length).symm]
      exact List.take_length _
    obtain ⟨hc, hl, htab⟩ := finalize_encodes entries hOK entries.length (le_refl _)
    rw [hful] at htab
    have htabT : ∀ k, k < entries.length →
        EncodesVal (fun _ => True) (encodeReferenceMap entries).1 entries.length (k + 1)
          (entries.getD k .mnil) :=
      fun k hk => EncodesVal_mono (fun d _ => trivial) (htab k hk)
    have hdec := decodes_of_encodesVal entries rank (encodeReferenceMap entries).1 hE htabT
      (rank i + 1) i hin (by omega)
    have hmap : (decodeToReferenceMap fuel (encodeReferenceMap entries).1
        (encodeReferenceMap entries).2).getD i none =
        decodeR fuel (encodeReferenceMap entries).1
          (((List.range entries.length).map (fun k => k + 1)).getD i 0) := by
      show ((((List.range entries.length).map (fun k => k + 1)).map
        (decodeR fuel (encodeReferenceMap entries).1)).getD i none) = _
      rw [List.getD_eq_getElem?_getD, List.getD_eq_getElem?_getD, List.getElem?_map]
      rw [List.getElem?_eq_getElem (by simpa using hin)]
      rfl
    rw [hmap, R_getD entries.length i hin]
    exact decodeR_of_decodes hdec fuel hfuel
  · intro entries rank hE i hin
    exact resolveR_unfold entries rank hE i hin

/-- Witness for C2's amended theorem: a concrete sequence, and the
forward-referencing two-entry map a = [b], b = [1] with the rank that
orders b before a. -/
theorem C2_codec_amended_witness :
    (sizeR (.rcons (.scalar 1) .rnil) ≤ 3 ∧
      decodeR 3 (encodeR (.rcons (.scalar 1) .rnil) []).1
        (encodeR (.rcons (.scalar 1) .rnil) []).2 = some (.rcons (.scalar 1) .rnil)) ∧
    (ResolvableBy [MValue.mcons (.ref 1) .mnil, MValue.mcons (.scalar 1) .mnil]
        (fun j => 1 - j) ∧
      (0 : Nat) < ([MValue.mcons (.ref 1) .mnil, MValue.mcons (.scalar 1) .mnil] :
        List MValue).length ∧
      sizeR (resolveR [MValue.mcons (.ref 1) .mnil, MValue.mcons (.scalar 1) .mnil]
        (fun j => 1 - j) 0) ≤ 5 ∧
      (decodeToReferenceMap 5
        (encodeReferenceMap [MValue.mcons (.ref 1) .mnil, MValue.mcons (.scalar 1) .mnil]).1
        (encodeReferenceMap [MValue.mcons (.ref 1) .mnil,
          MValue.mcons (.scalar 1) .mnil]).2).getD 0 none =
        some (resolveR [MValue.mcons (.ref 1) .mnil, MValue.mcons (.scalar 1) .mnil]
          (fun j => 1 - j) 0)) ∧
    resolveR [MValue.mcons (.ref 1) .mnil, MValue.mcons (.scalar 1) .mnil]
        (fun j => 1 - j) 0 =
      resolveInG (fun j => resolveR [MValue.mcons (.ref 1) .mnil,
        MValue.mcons (.scalar 1) .mnil] (fun j => 1 - j) j)
        (([MValue.mcons (.ref 1) .mnil, MValue.mcons (.scalar 1) .mnil] :
          List MValue).getD 0 .mnil) := by
  have hres : ResolvableBy [MValue.mcons (.ref 1) .mnil, MValue.mcons (.scalar 1) .mnil]
      (fun j => 1 - j) := by
    intro i hi
    have hi2 : i < 2 := by simpa using hi
    interval_cases i
    · exact ⟨rfl, rfl, rfl⟩
    · exact ⟨rfl, rfl, rfl⟩
  exact ⟨⟨by decide, C2_codec_amended.1 (.rcons (.scalar 1) .rnil) 3 (by decide)⟩,
    ⟨hres, by decide, by decide,
      C2_codec_amended.2.1 [MValue.mcons (.ref 1) .mnil, MValue.mcons (.scalar 1) .mnil]
        (fun j => 1 - j) hres 0 (by decide) 5 (by decide)⟩,
    C2_codec_amended.2.2 [MValue.mcons (.ref 1) .mnil, MValue.mcons (.scalar 1) .mnil]
      (fun j => 1 - j) hres 0 (by decide)⟩
